import Mathlib

/-!
Verification of a Tiny BASIC front-end and interpreter.

The development shallowly embeds the three components of the pipeline
(lexer, recursive-descent parser, tree-walking interpreter) as executable
Lean functions and proves the specified properties about them.

Machine integers (`i32` in the original) are modelled as `Int` together
with explicit two's-complement wrapping (`wrap32`) at every arithmetic
operation where overflow can occur.  Heap maps (`HashMap`) are modelled as
functions into `Option`.  The interpreter's output sink (`println!`) is
modelled as a list of emitted lines carried in the interpreter state.
Loops are modelled either by structural recursion on the remaining input
or, where the original loop is not structurally decreasing, by an explicit
fuel parameter; every entry point supplies fuel that is provably
sufficient for the inputs considered.
-/

/-- Two's-complement wrapping into the signed 32-bit range. -/
def wrap32 (n : Int) : Int := (n + 2 ^ 31) % 2 ^ 32 - 2 ^ 31

/- ------------------------------------------------------------------
   Lexer (src/lexer.rs)
   ------------------------------------------------------------------ -/

/-- The token type of the lexer, mirroring `enum Token`. -/
inductive Token where
  | Number (n : Int)
  | Ident (c : Char)
  | String (s : String)
  | Print
  | Let
  | Goto
  | If
  | Then
  | End
  | Dim
  | Plus
  | Minus
  | Star
  | Slash
  | Equals
  | LessThan
  | GreaterThan
  | LessEq
  | GreaterEq
  | NotEquals
  | LeftParen
  | RightParen
  | Comma
  deriving DecidableEq, Repr

/-- Lexical error: message plus scan position, mirroring `struct LexerError`. -/
structure LexerError where
  message : String
  position : Nat
  deriving DecidableEq, Repr

instance {ε α : Type} [DecidableEq ε] [DecidableEq α] : DecidableEq (Except ε α) := fun a b =>
  match a, b with
  | .ok x, .ok y => if h : x = y then .isTrue (by rw [h]) else .isFalse (by simp [h])
  | .error x, .error y => if h : x = y then .isTrue (by rw [h]) else .isFalse (by simp [h])
  | .ok _, .error _ => .isFalse (by simp)
  | .error _, .ok _ => .isFalse (by simp)

/-- Rust `char::is_whitespace`: the Unicode White_Space code points. -/
def is_rust_whitespace (c : Char) : Bool :=
  c.toNat == 0x09 || c.toNat == 0x0A || c.toNat == 0x0B || c.toNat == 0x0C ||
  c.toNat == 0x0D || c.toNat == 0x20 || c.toNat == 0x85 || c.toNat == 0xA0 ||
  c.toNat == 0x1680 || (0x2000 ≤ c.toNat && c.toNat ≤ 0x200A) ||
  c.toNat == 0x2028 || c.toNat == 0x2029 || c.toNat == 0x202F ||
  c.toNat == 0x205F || c.toNat == 0x3000

/-- Rust `char::is_ascii_digit`. -/
def is_ascii_digit (c : Char) : Bool := 48 ≤ c.toNat && c.toNat ≤ 57

/-- Rust `char::is_ascii_alphanumeric`. -/
def is_ascii_alphanumeric (c : Char) : Bool :=
  is_ascii_digit c || (65 ≤ c.toNat && c.toNat ≤ 90) || (97 ≤ c.toNat && c.toNat ≤ 122)

/-- ASCII letter test, mirroring the pattern `'A'..='Z' | 'a'..='z'`. -/
def is_ascii_letter (c : Char) : Bool :=
  (65 ≤ c.toNat && c.toNat ≤ 90) || (97 ≤ c.toNat && c.toNat ≤ 122)

/-- The `ToAsciiUpper` helper trait of the lexer: subtract 32 from an ASCII
lowercase letter, leave every other character unchanged. -/
def to_ascii_uppercase (c : Char) : Char :=
  if 97 ≤ c.toNat ∧ c.toNat ≤ 122 then Char.ofNat (c.toNat - 32) else c

/-- The digit-run loop of `tokenize` (`'0'..='9'` arm): consume consecutive
ASCII digits, accumulating `num = num * 10 + d` with `i32` wrapping.
Returns the accumulated value, the remaining input, and the scan position. -/
def lex_digits (acc : Int) : List Char → Nat → Int × List Char × Nat
  | [], pos => (acc, [], pos)
  | c :: rest, pos =>
    if is_ascii_digit c then
      lex_digits (wrap32 (wrap32 (acc * 10) + ((c.toNat - 48 : Nat) : Int))) rest (pos + 1)
    else (acc, c :: rest, pos)

/-- The identifier/keyword loop of `tokenize` (letter arm): consume
consecutive ASCII alphanumerics, upper-casing each.  Returns the collected
word, the remaining input, and the scan position. -/
def lex_word (kw : List Char) : List Char → Nat → List Char × List Char × Nat
  | [], pos => (kw, [], pos)
  | c :: rest, pos =>
    if is_ascii_alphanumeric c then lex_word (kw ++ [to_ascii_uppercase c]) rest (pos + 1)
    else (kw, c :: rest, pos)

/-- The string-literal loop of `tokenize` (`'"'` arm): consume characters up
to the closing quote; end of input is an "Unterminated string" error. -/
def lex_string_body (s : List Char) : List Char → Nat → Except LexerError (List Char × List Char × Nat)
  | [], pos => .error ⟨"Unterminated string", pos⟩
  | c :: rest, pos =>
    if c = '"' then .ok (s, rest, pos + 1)
    else lex_string_body (s ++ [c]) rest (pos + 1)

/-- Keyword recognition in the letter arm of `tokenize`. -/
def keyword_token (kw : List Char) (pos : Nat) : Except LexerError Token :=
  if String.mk kw = "PRINT" then .ok .Print
  else if String.mk kw = "LET" then .ok .Let
  else if String.mk kw = "GOTO" then .ok .Goto
  else if String.mk kw = "IF" then .ok .If
  else if String.mk kw = "THEN" then .ok .Then
  else if String.mk kw = "END" then .ok .End
  else if String.mk kw = "DIM" then .ok .Dim
  else if kw.length = 1 then .ok (.Ident (kw.headD 'A'))
  else .error ⟨"Invalid identifier: " ++ String.mk kw, pos⟩

/-- Handling of one consumed character `c` in the scanning loop of
`Lexer::tokenize`; `rest` is the input after `c`, `pos` the position after
consuming `c` is accounted below by `+ 1`, and `k` continues the scan.
The one-character lookahead of `<`/`>` reads `rest.head?` (Rust `peek`). -/
def tokenize_char (k : List Char → Nat → Except LexerError (List Token))
    (c : Char) (rest : List Char) (pos : Nat) : Except LexerError (List Token) :=
  if is_rust_whitespace c ∧ c ≠ '\n' then k rest (pos + 1)
  else if c = '\n' ∨ c = '\r' then k rest (pos + 1)
  else if c = '+' then (Token.Plus :: ·) <$> k rest (pos + 1)
  else if c = '-' then (Token.Minus :: ·) <$> k rest (pos + 1)
  else if c = '*' then (Token.Star :: ·) <$> k rest (pos + 1)
  else if c = '/' then (Token.Slash :: ·) <$> k rest (pos + 1)
  else if c = '(' then (Token.LeftParen :: ·) <$> k rest (pos + 1)
  else if c = ')' then (Token.RightParen :: ·) <$> k rest (pos + 1)
  else if c = ',' then (Token.Comma :: ·) <$> k rest (pos + 1)
  else if c = '=' then (Token.Equals :: ·) <$> k rest (pos + 1)
  else if c = '<' then
    if rest.head? = some '=' then (Token.LessEq :: ·) <$> k rest.tail (pos + 2)
    else if rest.head? = some '>' then (Token.NotEquals :: ·) <$> k rest.tail (pos + 2)
    else (Token.LessThan :: ·) <$> k rest (pos + 1)
  else if c = '>' then
    if rest.head? = some '=' then (Token.GreaterEq :: ·) <$> k rest.tail (pos + 2)
    else (Token.GreaterThan :: ·) <$> k rest (pos + 1)
  else if c = '"' then
    lex_string_body [] rest (pos + 1) >>= fun res =>
      (Token.String (String.mk res.1) :: ·) <$> k res.2.1 res.2.2
  else if is_ascii_digit c then
    let res := lex_digits ((c.toNat - 48 : Nat) : Int) rest (pos + 1)
    (Token.Number res.1 :: ·) <$> k res.2.1 res.2.2
  else if is_ascii_letter c then
    let res := lex_word [to_ascii_uppercase c] rest (pos + 1)
    keyword_token res.1 res.2.2 >>= fun t => (t :: ·) <$> k res.2.1 res.2.2
  else .error ⟨"Unexpected character: " ++ String.mk [c], pos + 1⟩

/-- One iteration of the scanning loop of `Lexer::tokenize` (skip one
whitespace character, or consume one token); `k` continues the scan on the
remaining input. -/
def tokenize_step (k : List Char → Nat → Except LexerError (List Token)) :
    List Char → Nat → Except LexerError (List Token)
  | [], _ => .ok []
  | c :: rest, pos => tokenize_char k c rest pos

/-- The main scanning loop of `Lexer::tokenize`.  One unit of fuel is spent
per produced token or skipped separator; since every iteration consumes at
least one input character, fuel `input.length + 1` always suffices, and the
fuel-exhaustion branch is unreachable from the `tokenize` entry point. -/
def tokenize_aux : Nat → List Char → Nat → Except LexerError (List Token)
  | 0, _, pos => .error ⟨"out of fuel", pos⟩
  | fuel + 1, cs, pos => tokenize_step (tokenize_aux fuel) cs pos

/-- `Lexer::new(input)` followed by `tokenize()`: scan from position 0. -/
def tokenize (input : String) : Except LexerError (List Token) :=
  tokenize_aux (input.data.length + 1) input.data 0

/- ------------------------------------------------------------------
   Syntax tree (src/ast.rs)
   ------------------------------------------------------------------ -/

/-- Binary operators, mirroring `enum BinaryOp`. -/
inductive BinaryOp where
  | Add | Sub | Mul | Div | Eq | Ne | Lt | Le | Gt | Ge
  deriving DecidableEq, Repr

/-- Expressions, mirroring `enum Expr`. -/
inductive Expr where
  | Number (n : Int)
  | Variable (c : Char)
  | ArrayAccess (name : Char) (index : Expr)
  | Binary (left : Expr) (op : BinaryOp) (right : Expr)
  deriving DecidableEq, Repr

/-- One item of a PRINT statement, mirroring `enum PrintItem`. -/
inductive PrintItem where
  | Expr (e : Expr)
  | String (s : String)
  deriving DecidableEq, Repr

/-- Statements, mirroring `enum Stmt`. -/
inductive Stmt where
  | Print (items : List PrintItem)
  | Let (var : Char) (value : Expr)
  | LetArray (var : Char) (index : Expr) (value : Expr)
  | Goto (line : Int)
  | If (condition : Expr) (then_line : Int)
  | End
  | Dim (var : Char) (size : Int)
  deriving DecidableEq, Repr

/-- A numbered program line, mirroring `struct Line`. -/
structure Line where
  number : Int
  stmt : Stmt
  deriving DecidableEq, Repr

/- ------------------------------------------------------------------
   Parser (src/parser.rs)
   ------------------------------------------------------------------ -/

/-- Parse errors, mirroring `enum ParseError`. -/
inductive ParseError where
  | Lexer (e : LexerError)
  | UnexpectedEnd
  | UnexpectedToken (s : String)
  | InvalidLineNumber
  deriving DecidableEq, Repr

/-- A rendering of tokens used inside error messages (Rust `{:?}`). -/
def token_debug : Token → String
  | .Number n => "Number(" ++ toString n ++ ")"
  | .Ident c => "Ident(" ++ String.mk [c] ++ ")"
  | .String s => "String(" ++ s ++ ")"
  | .Print => "Print"
  | .Let => "Let"
  | .Goto => "Goto"
  | .If => "If"
  | .Then => "Then"
  | .End => "End"
  | .Dim => "Dim"
  | .Plus => "Plus"
  | .Minus => "Minus"
  | .Star => "Star"
  | .Slash => "Slash"
  | .Equals => "Equals"
  | .LessThan => "LessThan"
  | .GreaterThan => "GreaterThan"
  | .LessEq => "LessEq"
  | .GreaterEq => "GreaterEq"
  | .NotEquals => "NotEquals"
  | .LeftParen => "LeftParen"
  | .RightParen => "RightParen"
  | .Comma => "Comma"

/-- `std::mem::discriminant` equality on tokens: same constructor,
payloads ignored. -/
def same_discriminant : Token → Token → Bool
  | .Number _, .Number _ => true
  | .Ident _, .Ident _ => true
  | .String _, .String _ => true
  | t, u => t == u

/-- `Parser::expect_token`: consume one token whose discriminant matches
the expected one. -/
def expect_token (expected : Token) : List Token → Except ParseError (List Token)
  | t :: rest =>
    if same_discriminant t expected then .ok rest
    else .error (.UnexpectedToken ("Expected " ++ token_debug expected ++ ", got " ++ token_debug t))
  | [] => .error .UnexpectedEnd

/-- The comparison-operator table of `Parser::parse_comparison`. -/
def comparison_op : Token → Option BinaryOp
  | .Equals => some .Eq
  | .NotEquals => some .Ne
  | .LessThan => some .Lt
  | .LessEq => some .Le
  | .GreaterThan => some .Gt
  | .GreaterEq => some .Ge
  | _ => none

/-- The additive-operator table of `Parser::parse_additive`. -/
def additive_op : Token → Option BinaryOp
  | .Plus => some .Add
  | .Minus => some .Sub
  | _ => none

/-- The multiplicative-operator table of `Parser::parse_multiplicative`. -/
def multiplicative_op : Token → Option BinaryOp
  | .Star => some .Mul
  | .Slash => some .Div
  | _ => none

/-- `Parser::parse_goto`: a single integer literal naming the target. -/
def parse_goto : List Token → Except ParseError (Stmt × List Token)
  | .Number n :: rest => .ok (.Goto n, rest)
  | t :: _ => .error (.UnexpectedToken ("Expected line number, got " ++ token_debug t))
  | [] => .error .UnexpectedEnd

/-- `Parser::parse_dim`: identifier, `(`, a single integer literal, `)`.
The size literal is accepted whatever its value; sign checking is left to
execution. -/
def parse_dim : List Token → Except ParseError (Stmt × List Token)
  | .Ident c :: rest =>
    (match expect_token .LeftParen rest with
     | .error e => .error e
     | .ok rest2 =>
       match rest2 with
       | .Number n :: rest3 =>
         (match expect_token .RightParen rest3 with
          | .error e => .error e
          | .ok rest4 => .ok (Stmt.Dim c n, rest4))
       | t :: _ => .error (.UnexpectedToken ("Expected array size, got " ++ token_debug t))
       | [] => .error .UnexpectedEnd)
  | t :: _ => .error (.UnexpectedToken ("Expected array name, got " ++ token_debug t))
  | [] => .error .UnexpectedEnd

mutual

/-- `Parser::parse_expr`: entry of the precedence ladder. -/
def parse_expr : Nat → List Token → Except ParseError (Expr × List Token)
  | 0, _ => .error .UnexpectedEnd
  | fuel + 1, ts => parse_comparison fuel ts

/-- `Parser::parse_comparison`: one optional, non-chainable comparison over
additive terms. -/
def parse_comparison : Nat → List Token → Except ParseError (Expr × List Token)
  | 0, _ => .error .UnexpectedEnd
  | fuel + 1, ts =>
    match parse_additive fuel ts with
    | .error e => .error e
    | .ok (left, ts1) =>
      match ts1 with
      | t :: ts2 =>
        (match comparison_op t with
         | some op =>
           (match parse_additive fuel ts2 with
            | .error e => .error e
            | .ok (right, ts3) => .ok (Expr.Binary left op right, ts3))
         | none => .ok (left, ts1))
      | [] => .ok (left, ts1)

/-- `Parser::parse_additive`: left-associative `+`/`-` chain. -/
def parse_additive : Nat → List Token → Except ParseError (Expr × List Token)
  | 0, _ => .error .UnexpectedEnd
  | fuel + 1, ts =>
    match parse_multiplicative fuel ts with
    | .error e => .error e
    | .ok (left, ts1) => parse_additive_loop fuel left ts1

/-- The `while` loop inside `Parser::parse_additive`. -/
def parse_additive_loop : Nat → Expr → List Token → Except ParseError (Expr × List Token)
  | 0, _, _ => .error .UnexpectedEnd
  | fuel + 1, left, ts =>
    match ts with
    | t :: ts2 =>
      (match additive_op t with
       | some op =>
         (match parse_multiplicative fuel ts2 with
          | .error e => .error e
          | .ok (right, ts3) => parse_additive_loop fuel (Expr.Binary left op right) ts3)
       | none => .ok (left, ts))
    | [] => .ok (left, ts)

/-- `Parser::parse_multiplicative`: left-associative `*`/`/` chain. -/
def parse_multiplicative : Nat → List Token → Except ParseError (Expr × List Token)
  | 0, _ => .error .UnexpectedEnd
  | fuel + 1, ts =>
    match parse_unary fuel ts with
    | .error e => .error e
    | .ok (left, ts1) => parse_multiplicative_loop fuel left ts1

/-- The `while` loop inside `Parser::parse_multiplicative`. -/
def parse_multiplicative_loop : Nat → Expr → List Token → Except ParseError (Expr × List Token)
  | 0, _, _ => .error .UnexpectedEnd
  | fuel + 1, left, ts =>
    match ts with
    | t :: ts2 =>
      (match multiplicative_op t with
       | some op =>
         (match parse_unary fuel ts2 with
          | .error e => .error e
          | .ok (right, ts3) => parse_multiplicative_loop fuel (Expr.Binary left op right) ts3)
       | none => .ok (left, ts))
    | [] => .ok (left, ts)

/-- `Parser::parse_unary`: leading `-` desugars to `0 - operand`,
right-recursively. -/
def parse_unary : Nat → List Token → Except ParseError (Expr × List Token)
  | 0, _ => .error .UnexpectedEnd
  | fuel + 1, ts =>
    match ts with
    | .Minus :: ts2 =>
      (match parse_unary fuel ts2 with
       | .error e => .error e
       | .ok (e, ts3) => .ok (Expr.Binary (Expr.Number 0) BinaryOp.Sub e, ts3))
    | _ => parse_primary fuel ts

/-- `Parser::parse_primary`: integer literal, variable or array access, or
parenthesized expression. -/
def parse_primary : Nat → List Token → Except ParseError (Expr × List Token)
  | 0, _ => .error .UnexpectedEnd
  | fuel + 1, ts =>
    match ts with
    | .Number n :: ts2 => .ok (Expr.Number n, ts2)
    | .Ident c :: .LeftParen :: ts3 =>
      (match parse_expr fuel ts3 with
       | .error e => .error e
       | .ok (index, ts4) =>
         match expect_token .RightParen ts4 with
         | .error e => .error e
         | .ok ts5 => .ok (Expr.ArrayAccess c index, ts5))
    | .Ident c :: ts2 => .ok (Expr.Variable c, ts2)
    | .LeftParen :: ts2 =>
      (match parse_expr fuel ts2 with
       | .error e => .error e
       | .ok (e, ts3) =>
         match expect_token .RightParen ts3 with
         | .error e => .error e
         | .ok ts4 => .ok (e, ts4))
    | t :: _ => .error (.UnexpectedToken ("Expected expression, got " ++ token_debug t))
    | [] => .error .UnexpectedEnd

end

/-- After one PRINT item: a comma continues the loop (`k`), anything else
ends the statement. -/
def parse_print_after
    (k : List PrintItem → List Token → Except ParseError (List PrintItem × List Token))
    (items : List PrintItem) : List Token → Except ParseError (List PrintItem × List Token)
  | .Comma :: ts2 => k items ts2
  | ts => .ok (items, ts)

/-- The item loop of `Parser::parse_print` (loop head: a string item, the
start of an expression item, or a separating comma, which is skipped;
anything else ends the statement). -/
def parse_print_loop : Nat → List PrintItem → List Token → Except ParseError (List PrintItem × List Token)
  | 0, _, _ => .error .UnexpectedEnd
  | fuel + 1, items, ts =>
    match ts with
    | .String s :: ts2 => parse_print_after (parse_print_loop fuel) (items ++ [.String s]) ts2
    | .Ident _ :: _ =>
      (match parse_expr fuel ts with
       | .error e => .error e
       | .ok (e, ts2) => parse_print_after (parse_print_loop fuel) (items ++ [.Expr e]) ts2)
    | .Number _ :: _ =>
      (match parse_expr fuel ts with
       | .error e => .error e
       | .ok (e, ts2) => parse_print_after (parse_print_loop fuel) (items ++ [.Expr e]) ts2)
    | .LeftParen :: _ =>
      (match parse_expr fuel ts with
       | .error e => .error e
       | .ok (e, ts2) => parse_print_after (parse_print_loop fuel) (items ++ [.Expr e]) ts2)
    | .Comma :: ts2 => parse_print_loop fuel items ts2
    | _ => .ok (items, ts)

/-- `Parser::parse_print`. -/
def parse_print (fuel : Nat) (ts : List Token) : Except ParseError (Stmt × List Token) :=
  match parse_print_loop fuel [] ts with
  | .error e => .error e
  | .ok (items, ts1) => .ok (Stmt.Print items, ts1)

/-- `Parser::parse_let`: plain or array assignment. -/
def parse_let (fuel : Nat) : List Token → Except ParseError (Stmt × List Token)
  | .Ident c :: .LeftParen :: ts3 =>
    (match parse_expr fuel ts3 with
     | .error e => .error e
     | .ok (index, ts4) =>
       match expect_token .RightParen ts4 with
       | .error e => .error e
       | .ok ts5 =>
         match expect_token .Equals ts5 with
         | .error e => .error e
         | .ok ts6 =>
           match parse_expr fuel ts6 with
           | .error e => .error e
           | .ok (value, ts7) => .ok (Stmt.LetArray c index value, ts7))
  | .Ident c :: ts2 =>
    (match expect_token .Equals ts2 with
     | .error e => .error e
     | .ok ts3 =>
       match parse_expr fuel ts3 with
       | .error e => .error e
       | .ok (value, ts4) => .ok (Stmt.Let c value, ts4))
  | t :: _ => .error (.UnexpectedToken ("Expected variable, got " ++ token_debug t))
  | [] => .error .UnexpectedEnd

/-- `Parser::parse_if`: condition, THEN, target line literal. -/
def parse_if (fuel : Nat) (ts : List Token) : Except ParseError (Stmt × List Token) :=
  match parse_expr fuel ts with
  | .error e => .error e
  | .ok (condition, ts1) =>
    match expect_token .Then ts1 with
    | .error e => .error e
    | .ok ts2 =>
      match ts2 with
      | .Number n :: ts3 => .ok (Stmt.If condition n, ts3)
      | t :: _ => .error (.UnexpectedToken ("Expected line number, got " ++ token_debug t))
      | [] => .error .UnexpectedEnd

/-- `Parser::parse_statement`: dispatch on the leading keyword token. -/
def parse_statement (fuel : Nat) : List Token → Except ParseError (Stmt × List Token)
  | .Print :: ts2 => parse_print fuel ts2
  | .Let :: ts2 => parse_let fuel ts2
  | .Goto :: ts2 => parse_goto ts2
  | .If :: ts2 => parse_if fuel ts2
  | .End :: ts2 => .ok (Stmt.End, ts2)
  | .Dim :: ts2 => parse_dim ts2
  | t :: _ => .error (.UnexpectedToken ("Expected statement, got " ++ token_debug t))
  | [] => .error .UnexpectedEnd

/-- `Parser::parse_line`: a line number literal followed by a statement;
a non-number lookahead (or end of input) yields no line. -/
def parse_line (fuel : Nat) : List Token → Except ParseError (Option Line × List Token)
  | .Number n :: ts2 =>
    (match parse_statement fuel ts2 with
     | .error e => .error e
     | .ok (stmt, ts3) => .ok (some ⟨n, stmt⟩, ts3))
  | ts => .ok (none, ts)

/-- The top-level collection loop of `Parser::parse_program`:
repeatedly parse lines until `parse_line` declines. -/
def parse_program_loop : Nat → List Line → List Token → Except ParseError (List Line)
  | 0, _, _ => .error .UnexpectedEnd
  | fuel + 1, lines, ts =>
    match parse_line fuel ts with
    | .error e => .error e
    | .ok (some line, ts2) => parse_program_loop fuel (lines ++ [line]) ts2
    | .ok (none, _) => .ok lines

/-- Fuel that is always sufficient for the recursive-descent parser on a
given token list: each unit of nesting or looping consumes at least one
token, and each token can open at most a constant amount of descent. -/
def parser_fuel (ts : List Token) : Nat := 16 * (ts.length + 1)

/-- `Parser::parse_program`: collect all lines, then stably sort them
ascending by line number (`sort_by_key` is a stable sort). -/
def parse_program (ts : List Token) : Except ParseError (List Line) :=
  match parse_program_loop (parser_fuel ts) [] ts with
  | .error e => .error e
  | .ok lines => .ok (lines.mergeSort (fun a b => decide (a.number ≤ b.number)))

/-- The free function `parse`: tokenize, then parse the program. -/
def parse (source : String) : Except ParseError (List Line) :=
  match tokenize source with
  | .error e => .error (.Lexer e)
  | .ok ts => parse_program ts

/- ------------------------------------------------------------------
   Interpreter (src/interpreter.rs)
   ------------------------------------------------------------------ -/

/-- Runtime errors, mirroring `enum RuntimeError`. -/
inductive RuntimeError where
  | DivisionByZero
  | UndefinedVariable (c : Char)
  | UndefinedArray (c : Char)
  | ArrayNotDimensioned (c : Char)
  | InvalidLineNumber (n : Int)
  | IndexOutOfBounds (array : Char) (index : Int) (size : Int)
  deriving DecidableEq, Repr

/-- The outcome of one interpreter computation: `ok` and `error` mirror
Rust's `Result<_, RuntimeError>`, and `panic` models an aborting Rust
`panic!` unwind.  The only panic reachable in `interpreter.rs` is `i32`
division overflow — `l / r` at `l == i32::MIN, r == -1` — which Rust
checks unconditionally in every build mode (unlike `+`/`-`/`*`, whose
release-mode behaviour is two's-complement wrapping). -/
inductive RunResult (α : Type) where
  | ok (a : α)
  | error (e : RuntimeError)
  | panic (msg : String)
  deriving DecidableEq

/-- `?`-style propagation for `RunResult`: an error or a panic outcome
short-circuits the rest of the computation (a panic unwinds through every
caller). -/
instance : Monad RunResult where
  pure a := .ok a
  bind x f :=
    match x with
    | .ok a => f a
    | .error e => .error e
    | .panic m => .panic m

/-- Interpreter state, mirroring `struct Interpreter`.  The two `HashMap`s
are modelled as functions into `Option` (`vars` models the `variables`
field); `output` models the sequence of lines emitted through `println!`. -/
structure Interpreter where
  vars : Char → Option Int
  arrays : Char → Option (List Int)
  program : List Line
  line_index : Nat
  done : Bool
  output : List String

/-- `Interpreter::new`: empty array bank, all 26 variables A-Z pre-seeded
to 0, cursor at 0, not done. -/
def Interpreter.new (program : List Line) : Interpreter where
  vars := fun c => if 'A' ≤ c ∧ c ≤ 'Z' then some 0 else none
  arrays := fun _ => none
  program := program
  line_index := 0
  done := false
  output := []

/-- `Interpreter::get_line_index`: position of the first line whose number
equals the target, else the invalid-line-number error. -/
def Interpreter.get_line_index (self : Interpreter) (line_num : Int) : Except RuntimeError Nat :=
  match self.program.findIdx? (fun l => decide (l.number = line_num)) with
  | some i => .ok i
  | none => .error (.InvalidLineNumber line_num)

/-- `Interpreter::eval_expr`: pure expression evaluation over wrapped
signed 32-bit integers.  `l / r` is Rust's truncating division, which
first trips Rust's unconditional overflow check: at `l == i32::MIN` and
`r == -1` the program panics (in every build mode) instead of producing a
value, modelled by the `panic` outcome. -/
def Interpreter.eval_expr (self : Interpreter) : Expr → RunResult Int
  | .Number n => .ok n
  | .Variable c =>
    match self.vars c with
    | some v => .ok v
    | none => .error (.UndefinedVariable c)
  | .ArrayAccess name index_expr => do
    let index ← self.eval_expr index_expr
    match self.arrays name with
    | none => .error (.ArrayNotDimensioned name)
    | some arr =>
      if index < 0 ∨ wrap32 arr.length ≤ index then
        .error (.IndexOutOfBounds name index (wrap32 arr.length))
      else .ok (arr.getD index.toNat 0)
  | .Binary l op r => do
    let lv ← self.eval_expr l
    let rv ← self.eval_expr r
    match op with
    | .Add => .ok (wrap32 (lv + rv))
    | .Sub => .ok (wrap32 (lv - rv))
    | .Mul => .ok (wrap32 (lv * rv))
    | .Div =>
      if rv = 0 then .error .DivisionByZero
      else if lv = -(2 ^ 31) ∧ rv = -1 then .panic ("attempt to divide with overflow")
      else .ok (wrap32 (lv.tdiv rv))
    | .Eq => .ok (if lv = rv then 1 else 0)
    | .Ne => .ok (if lv ≠ rv then 1 else 0)
    | .Lt => .ok (if lv < rv then 1 else 0)
    | .Le => .ok (if lv ≤ rv then 1 else 0)
    | .Gt => .ok (if rv < lv then 1 else 0)
    | .Ge => .ok (if rv ≤ lv then 1 else 0)

/-- The item-rendering loop of the PRINT arm of
`Interpreter::execute_statement`: evaluate items left to right, strings
pass through, expression values render in decimal. -/
def Interpreter.render_items (self : Interpreter) : List PrintItem → RunResult (List String)
  | [] => .ok []
  | .String s :: rest => do
      let out ← self.render_items rest
      .ok (s :: out)
  | .Expr e :: rest => do
      let v ← self.eval_expr e
      let out ← self.render_items rest
      .ok (toString v :: out)

/-- `Interpreter::execute_statement`: returns the updated state and an
optional jump target.  In the original, no branch mutates state before
reporting an error, so an error result leaves the state unchanged. -/
def Interpreter.execute_statement (self : Interpreter) : Stmt → RunResult (Interpreter × Option Int)
  | .Print items => do
      let out ← self.render_items items
      .ok ({self with output := self.output ++ [String.intercalate " " out]}, none)
  | .Let var value => do
      let val ← self.eval_expr value
      .ok ({self with vars := fun c => if c = var then some val else self.vars c}, none)
  | .LetArray name index_expr value => do
      let index ← self.eval_expr index_expr
      let val ← self.eval_expr value
      match self.arrays name with
      | none => .error (.ArrayNotDimensioned name)
      | some arr =>
        if index < 0 ∨ wrap32 arr.length ≤ index then
          .error (.IndexOutOfBounds name index (wrap32 arr.length))
        else
          .ok ({self with arrays := fun c => if c = name then some (arr.set index.toNat val) else self.arrays c}, none)
  | .Goto line_num => .ok (self, some line_num)
  | .If condition then_line => do
      let result ← self.eval_expr condition
      if result ≠ 0 then .ok (self, some then_line)
      else .ok (self, none)
  | .End => .ok ({self with done := true}, none)
  | .Dim name size =>
      if size < 0 then .error (.IndexOutOfBounds name size 0)
      else
        .ok ({self with arrays := fun c => if c = name then some (List.replicate size.toNat 0) else self.arrays c}, none)

/-- The `while` loop of `Interpreter::run`.  The result's second component
is `none` when the fuel runs out (the original program loops on), and
`some r` when the loop exits with result `r`; a `panic` from a statement
unwinds straight out of the loop. -/
def Interpreter.run_loop : Nat → Interpreter → Interpreter × Option (RunResult Unit)
  | 0, st => (st, none)
  | fuel + 1, st =>
    if st.done ∨ st.program.length ≤ st.line_index then (st, some (.ok ()))
    else
      match st.program[st.line_index]? with
      | none => (st, some (.ok ()))
      | some line =>
        match st.execute_statement line.stmt with
        | .error e => (st, some (.error e))
        | .panic m => (st, some (.panic m))
        | .ok (st', some goto_line) =>
          match st'.get_line_index goto_line with
          | .error e => (st', some (.error e))
          | .ok i => Interpreter.run_loop fuel {st' with line_index := i}
        | .ok (st', none) => Interpreter.run_loop fuel {st' with line_index := st'.line_index + 1}

/-- `Interpreter::run`: an empty program returns immediately; otherwise
reset the cursor and termination flag (and nothing else) and execute.
The fuel bounds the number of loop iterations modelled. -/
def Interpreter.run (self : Interpreter) (fuel : Nat) : Interpreter × Option (RunResult Unit) :=
  if self.program.isEmpty then (self, some (.ok ()))
  else Interpreter.run_loop fuel {self with line_index := 0, done := false}


/- ------------------------------------------------------------------
   Helper lemmas
   ------------------------------------------------------------------ -/

theorem except_bind_ok {ε α β : Type} (a : α) (f : α → Except ε β) :
    (Except.ok a : Except ε α) >>= f = f a := rfl

theorem except_bind_error {ε α β : Type} (e : ε) (f : α → Except ε β) :
    (Except.error e : Except ε α) >>= f = Except.error e := rfl

theorem except_map_ok {ε α β : Type} (a : α) (f : α → β) :
    f <$> (Except.ok a : Except ε α) = Except.ok (f a) := rfl

theorem except_map_error {ε α β : Type} (e : ε) (f : α → β) :
    f <$> (Except.error e : Except ε α) = Except.error e := rfl

theorem rr_bind_ok {α β : Type} (a : α) (f : α → RunResult β) :
    (RunResult.ok a >>= f) = f a := rfl

theorem rr_bind_error {α β : Type} (e : RuntimeError) (f : α → RunResult β) :
    (RunResult.error e >>= f) = RunResult.error e := rfl

theorem rr_bind_panic {α β : Type} (m : String) (f : α → RunResult β) :
    (RunResult.panic m >>= f) = RunResult.panic m := rfl

theorem rr_map_ok {α β : Type} (a : α) (f : α → β) :
    f <$> RunResult.ok a = RunResult.ok (f a) := rfl

theorem rr_map_error {α β : Type} (e : RuntimeError) (f : α → β) :
    f <$> (RunResult.error e : RunResult α) = RunResult.error e := rfl

theorem rr_map_panic {α β : Type} (m : String) (f : α → β) :
    f <$> (RunResult.panic m : RunResult α) = RunResult.panic m := rfl

theorem rr_bind_eq_ok {α β : Type} {x : RunResult α} {f : α → RunResult β} {b : β}
    (h : (x >>= f) = .ok b) : ∃ a, x = .ok a ∧ f a = .ok b := by
  cases x with
  | ok a => exact ⟨a, rfl, h⟩
  | error e =>
    rw [rr_bind_error] at h
    exact RunResult.noConfusion h
  | panic m =>
    rw [rr_bind_panic] at h
    exact RunResult.noConfusion h

theorem rr_bind_eq_error {α β : Type} {x : RunResult α} {f : α → RunResult β} {ev : RuntimeError}
    (h : (x >>= f) = .error ev) : x = .error ev ∨ ∃ a, x = .ok a ∧ f a = .error ev := by
  cases x with
  | ok a => exact Or.inr ⟨a, rfl, h⟩
  | error e =>
    left
    rw [rr_bind_error] at h
    injection h with h2
    rw [h2]
  | panic m =>
    rw [rr_bind_panic] at h
    exact RunResult.noConfusion h

theorem rr_ok_pair_inj {α β : Type} {a e : α} {b r : β}
    (h : (RunResult.ok (a, b) : RunResult (α × β)) = .ok (e, r)) : a = e ∧ b = r := by
  injection h with h2
  exact ⟨congrArg Prod.fst h2, congrArg Prod.snd h2⟩

/-- Helper: evaluating the parser on concrete input without reducing
`mergeSort` in the kernel: if the collection loop yields an
already-sorted list, `parse_program` returns it unchanged. -/
theorem parse_program_eq_of_sorted (ts : List Token) (ls : List Line)
    (h : parse_program_loop (parser_fuel ts) [] ts = .ok ls)
    (hs : List.Pairwise (fun a b : Line => a.number ≤ b.number) ls) :
    parse_program ts = .ok ls := by
  unfold parse_program
  rw [h]
  show Except.ok (ls.mergeSort fun a b => decide (a.number ≤ b.number)) = Except.ok ls
  rw [List.mergeSort_of_sorted (by simpa using hs)]

/-- Helper: full-pipeline evaluation of `parse` on concrete input. -/
theorem parse_eq_of_sorted (src : String) (ts : List Token) (ls : List Line)
    (h1 : tokenize src = .ok ts)
    (h2 : parse_program_loop (parser_fuel ts) [] ts = .ok ls)
    (hs : List.Pairwise (fun a b : Line => a.number ≤ b.number) ls) :
    parse src = .ok ls := by
  unfold parse
  rw [h1]
  exact parse_program_eq_of_sorted ts ls h2 hs

/- ------------------------------------------------------------------
   C10: jump resolution picks the first line with a matching number
   ------------------------------------------------------------------ -/

/-- C10: for every Program, a successful `get_line_index` returns the index
of the first line (in storage order) whose number equals the target, so a
jump into a program with duplicate line numbers resolves to the first
duplicate; illustrated on a program with two lines numbered 10. -/
theorem c10_jump_resolves_to_first_duplicate :
    (∀ (self : Interpreter) (t : Int) (i : Nat),
      self.get_line_index t = .ok i →
        ∃ h : i < self.program.length,
          (self.program.get ⟨i, h⟩).number = t ∧
          ∀ j (hj : j < i), (self.program.get ⟨j, Nat.lt_trans hj h⟩).number ≠ t) ∧
    Interpreter.get_line_index
      (Interpreter.new [⟨10, Stmt.Print [PrintItem.String "first"]⟩,
                        ⟨10, Stmt.Print [PrintItem.String "second"]⟩]) 10 = .ok 0 := by
  constructor
  · intro self t i h
    unfold Interpreter.get_line_index at h
    cases hf : self.program.findIdx? (fun l => decide (l.number = t)) with
    | none => rw [hf] at h; exact absurd h (by simp)
    | some j =>
      rw [hf] at h
      have hij : j = i := by simpa using h
      subst hij
      rw [List.findIdx?_eq_some_iff_getElem] at hf
      obtain ⟨hlt, hp, hprev⟩ := hf
      refine ⟨hlt, by simpa using hp, ?_⟩
      intro k hk
      have := hprev k hk
      simpa using this
  · decide

/-- Witness for the universally quantified part of C10's theorem, at the
duplicate-line program. -/
theorem c10_witness :
    ∃ h : 0 < (Interpreter.new [⟨10, Stmt.Print [PrintItem.String "first"]⟩,
                      ⟨10, Stmt.Print [PrintItem.String "second"]⟩]).program.length,
      ((Interpreter.new [⟨10, Stmt.Print [PrintItem.String "first"]⟩,
                      ⟨10, Stmt.Print [PrintItem.String "second"]⟩]).program.get ⟨0, h⟩).number = 10 ∧
      ∀ j (hj : j < 0),
        ((Interpreter.new [⟨10, Stmt.Print [PrintItem.String "first"]⟩,
                      ⟨10, Stmt.Print [PrintItem.String "second"]⟩]).program.get
          ⟨j, Nat.lt_trans hj h⟩).number ≠ 10 :=
  c10_jump_resolves_to_first_duplicate.1 _ 10 0 (by decide)

/- ------------------------------------------------------------------
   C6: negative DIM sizes pass the parser, fail at execution
   ------------------------------------------------------------------ -/

/-- C6: `parse_dim` accepts any integer size literal, negative included;
executing DIM with a negative size fails with the out-of-bounds-style
error; executing DIM with a non-negative size (re)allocates a zero-filled
array of that size for the letter, discarding prior contents. -/
theorem c6_dim_negative_size_semantics :
    (∀ (c : Char) (s : Int) (rest : List Token),
      parse_dim (Token.Ident c :: Token.LeftParen :: Token.Number s :: Token.RightParen :: rest)
        = .ok (Stmt.Dim c s, rest)) ∧
    (∀ (st : Interpreter) (c : Char) (s : Int), s < 0 →
      st.execute_statement (Stmt.Dim c s) = .error (.IndexOutOfBounds c s 0)) ∧
    (∀ (st : Interpreter) (c : Char) (s : Int), 0 ≤ s →
      st.execute_statement (Stmt.Dim c s) =
        .ok ({st with arrays := fun c2 => if c2 = c then some (List.replicate s.toNat 0) else st.arrays c2},
             none)) := by
  refine ⟨?_, ?_, ?_⟩
  · intro c s rest
    simp [parse_dim, expect_token, same_discriminant, except_bind_ok]
  · intro st c s hs
    simp [Interpreter.execute_statement, hs]
  · intro st c s hs
    simp [Interpreter.execute_statement, not_lt.mpr hs]

/-- Witness for C6's theorem: size -5 is parsed and rejected at execution,
size 5 allocates a zero-filled array. -/
theorem c6_witness :
    parse_dim [Token.Ident 'A', Token.LeftParen, Token.Number (-5), Token.RightParen]
      = .ok (Stmt.Dim 'A' (-5), []) ∧
    (Interpreter.new []).execute_statement (Stmt.Dim 'A' (-5))
      = .error (.IndexOutOfBounds 'A' (-5) 0) ∧
    (Interpreter.new []).execute_statement (Stmt.Dim 'A' 5)
      = .ok ({Interpreter.new [] with
               arrays := fun c2 => if c2 = 'A' then some (List.replicate (5 : Int).toNat 0)
                         else (Interpreter.new []).arrays c2}, none) :=
  ⟨c6_dim_negative_size_semantics.1 'A' (-5) [],
   c6_dim_negative_size_semantics.2.1 _ 'A' (-5) (by decide),
   c6_dim_negative_size_semantics.2.2 _ 'A' 5 (by decide)⟩

/- ------------------------------------------------------------------
   C3: binary expression evaluation
   ------------------------------------------------------------------ -/

/-- C3 counterexample: the claim says that whenever both operands evaluate
and the divisor is nonzero, divide computes a value (truncation toward
zero); but at `lv = -2^31`, `rv = -1` — reachable through in-range BASIC
arithmetic — Rust's unconditional `i32` division overflow check panics in
every build mode, so evaluation aborts, producing neither a value nor the
division-by-zero error. -/
theorem c3_counterexample :
    (Interpreter.new []).eval_expr (.Binary (.Number (-(2 ^ 31))) .Div (.Number (-1)))
      = .panic ("attempt to divide with overflow") ∧
    (Interpreter.new []).eval_expr (.Binary (.Number (-(2 ^ 31))) .Div (.Number (-1)))
      ≠ .error .DivisionByZero ∧
    (Interpreter.new []).eval_expr (.Binary (.Number (-(2 ^ 31))) .Div (.Number (-1)))
      ≠ .ok (wrap32 (Int.tdiv (-(2 ^ 31)) (-1))) := by
  refine ⟨by decide, by decide, by decide⟩

/-- C3 amended: binary evaluation evaluates the left operand first and then
the right operand with no short-circuit (a left error surfaces regardless
of the right side, a right error surfaces whenever the left succeeded);
arithmetic is wrapped signed 32-bit, division by zero fails, division by a
nonzero divisor truncates toward zero (`Int.tdiv`) except at
`i32::MIN / -1`, where Rust's division overflow check aborts with a panic
in every build mode, and each comparison returns 1 when it holds under the
ordinary integer ordering and 0 otherwise. -/
theorem c3_binary_expression_evaluation :
    ∀ (st : Interpreter) (l r : Expr),
      (∀ (op : BinaryOp) (e : RuntimeError), st.eval_expr l = .error e →
        st.eval_expr (.Binary l op r) = .error e) ∧
      (∀ (op : BinaryOp) (lv : Int) (e : RuntimeError),
        st.eval_expr l = .ok lv → st.eval_expr r = .error e →
        st.eval_expr (.Binary l op r) = .error e) ∧
      (∀ (lv rv : Int), st.eval_expr l = .ok lv → st.eval_expr r = .ok rv →
        st.eval_expr (.Binary l .Add r) = .ok (wrap32 (lv + rv)) ∧
        st.eval_expr (.Binary l .Sub r) = .ok (wrap32 (lv - rv)) ∧
        st.eval_expr (.Binary l .Mul r) = .ok (wrap32 (lv * rv)) ∧
        (rv = 0 → st.eval_expr (.Binary l .Div r) = .error .DivisionByZero) ∧
        (rv ≠ 0 → ¬(lv = -(2 ^ 31) ∧ rv = -1) →
          st.eval_expr (.Binary l .Div r) = .ok (wrap32 (lv.tdiv rv))) ∧
        (lv = -(2 ^ 31) → rv = -1 →
          st.eval_expr (.Binary l .Div r) = .panic ("attempt to divide with overflow")) ∧
        st.eval_expr (.Binary l .Eq r) = .ok (if lv = rv then 1 else 0) ∧
        st.eval_expr (.Binary l .Ne r) = .ok (if lv ≠ rv then 1 else 0) ∧
        st.eval_expr (.Binary l .Lt r) = .ok (if lv < rv then 1 else 0) ∧
        st.eval_expr (.Binary l .Le r) = .ok (if lv ≤ rv then 1 else 0) ∧
        st.eval_expr (.Binary l .Gt r) = .ok (if rv < lv then 1 else 0) ∧
        st.eval_expr (.Binary l .Ge r) = .ok (if rv ≤ lv then 1 else 0)) := by
  intro st l r
  refine ⟨?_, ?_, ?_⟩
  · intro op e h
    show (st.eval_expr l >>= fun lv => _) = RunResult.error e
    rw [h, rr_bind_error]
  · intro op lv e h1 h2
    show (st.eval_expr l >>= fun lv => st.eval_expr r >>= _) = RunResult.error e
    rw [h1, rr_bind_ok, h2, rr_bind_error]
  · intro lv rv h1 h2
    have base : ∀ (op : BinaryOp),
        st.eval_expr (.Binary l op r)
          = (match op with
             | .Add => .ok (wrap32 (lv + rv))
             | .Sub => .ok (wrap32 (lv - rv))
             | .Mul => .ok (wrap32 (lv * rv))
             | .Div =>
               if rv = 0 then .error .DivisionByZero
               else if lv = -(2 ^ 31) ∧ rv = -1 then .panic ("attempt to divide with overflow")
               else .ok (wrap32 (lv.tdiv rv))
             | .Eq => .ok (if lv = rv then 1 else 0)
             | .Ne => .ok (if lv ≠ rv then 1 else 0)
             | .Lt => .ok (if lv < rv then 1 else 0)
             | .Le => .ok (if lv ≤ rv then 1 else 0)
             | .Gt => .ok (if rv < lv then 1 else 0)
             | .Ge => .ok (if rv ≤ lv then 1 else 0)) := by
      intro op
      show (st.eval_expr l >>= fun lv => st.eval_expr r >>= _) = _
      rw [h1, rr_bind_ok, h2, rr_bind_ok]
    refine ⟨base .Add, base .Sub, base .Mul, ?_, ?_, ?_,
            base .Eq, base .Ne, base .Lt, base .Le, base .Gt, base .Ge⟩
    · intro h
      rw [base .Div, if_pos h]
    · intro h hov
      rw [base .Div, if_neg h, if_neg hov]
    · intro hl hr
      rw [base .Div, if_neg (by rw [hr]; decide), if_pos ⟨hl, hr⟩]

/-- Witness for C3's amended theorem: `7 / 2` truncates to 3, `3 < 5`
yields 1, `1 / 0` is the division-by-zero error, and `-2147483648 / -1`
aborts with the division-overflow panic. -/
theorem c3_witness :
    (Interpreter.new []).eval_expr (.Binary (.Number 7) .Div (.Number 2)) = .ok 3 ∧
    (Interpreter.new []).eval_expr (.Binary (.Number 3) .Lt (.Number 5)) = .ok 1 ∧
    (Interpreter.new []).eval_expr (.Binary (.Number 1) .Div (.Number 0)) = .error .DivisionByZero ∧
    (Interpreter.new []).eval_expr (.Binary (.Number (-2147483648)) .Div (.Number (-1)))
      = .panic ("attempt to divide with overflow") := by
  have h := (c3_binary_expression_evaluation (Interpreter.new []) (.Number 7) (.Number 2)).2.2 7 2
    (by decide) (by decide)
  have h2 := (c3_binary_expression_evaluation (Interpreter.new []) (.Number 3) (.Number 5)).2.2 3 5
    (by decide) (by decide)
  have h3 := (c3_binary_expression_evaluation (Interpreter.new []) (.Number 1) (.Number 0)).2.2 1 0
    (by decide) (by decide)
  have h4 := (c3_binary_expression_evaluation (Interpreter.new [])
      (.Number (-2147483648)) (.Number (-1))).2.2 (-2147483648) (-1) (by decide) (by decide)
  refine ⟨(h.2.2.2.2.1 (by decide) (by decide)).trans (by decide),
          (h2.2.2.2.2.2.2.2.1).trans (by decide),
          h3.2.2.2.1 rfl,
          h4.2.2.2.2.2.1 (by decide) (by decide)⟩

/- ------------------------------------------------------------------
   C5: PRINT evaluation order, joining, and all-or-nothing output
   ------------------------------------------------------------------ -/

/-- C5: PRINT items are rendered in left-to-right order (a string item
passes through, an expression item renders as its decimal value, and the
first failing item aborts rendering with its error); on success the texts
are joined with single spaces and emitted as one output line; on failure
the PRINT statement produces that error and leaves the state, and hence
the output, untouched.  In particular `10 PRINT 1/0` parses to a one-line
program whose run fails with division-by-zero and emits nothing. -/
theorem c5_print_semantics :
    (∀ (st : Interpreter) (items : List PrintItem) (e : RuntimeError),
       st.render_items items = .error e →
       st.execute_statement (.Print items) = .error e) ∧
    (∀ (st : Interpreter) (ex : Expr) (rest : List PrintItem) (e : RuntimeError),
       st.eval_expr ex = .error e → st.render_items (.Expr ex :: rest) = .error e) ∧
    (∀ (st : Interpreter) (s : String) (rest : List PrintItem),
       st.render_items (.String s :: rest) = (s :: ·) <$> st.render_items rest) ∧
    (∀ (st : Interpreter) (ex : Expr) (v : Int) (rest : List PrintItem),
       st.eval_expr ex = .ok v →
       st.render_items (.Expr ex :: rest) = (toString v :: ·) <$> st.render_items rest) ∧
    (∀ (st : Interpreter) (items : List PrintItem) (texts : List String),
       st.render_items items = .ok texts →
       st.execute_statement (.Print items)
         = .ok ({st with output := st.output ++ [String.intercalate " " texts]}, none)) ∧
    (parse ("10 PRINT 1/0")
       = .ok [⟨10, .Print [.Expr (.Binary (.Number 1) .Div (.Number 0))]⟩] ∧
     (Interpreter.run
        (Interpreter.new [⟨10, .Print [.Expr (.Binary (.Number 1) .Div (.Number 0))]⟩]) 10).2
       = some (.error .DivisionByZero) ∧
     (Interpreter.run
        (Interpreter.new [⟨10, .Print [.Expr (.Binary (.Number 1) .Div (.Number 0))]⟩]) 10).1.output
       = []) := by
  refine ⟨?_, ?_, ?_, ?_, ?_, ?_, ?_, ?_⟩
  · intro st items e h
    show (st.render_items items >>= fun out => _) = RunResult.error e
    rw [h, rr_bind_error]
  · intro st ex rest e h
    show (st.eval_expr ex >>= fun v => _) = RunResult.error e
    rw [h, rr_bind_error]
  · intro st s rest
    show (st.render_items rest >>= fun out => RunResult.ok (s :: out)) = _
    cases st.render_items rest with
    | ok out => rw [rr_bind_ok, rr_map_ok]
    | error e => rw [rr_bind_error, rr_map_error]
    | panic m => rw [rr_bind_panic, rr_map_panic]
  · intro st ex v rest h
    show (st.eval_expr ex >>= fun v => st.render_items rest >>= fun out => RunResult.ok (toString v :: out)) = _
    rw [h, rr_bind_ok]
    cases st.render_items rest with
    | ok out => rw [rr_bind_ok, rr_map_ok]
    | error e => rw [rr_bind_error, rr_map_error]
    | panic m => rw [rr_bind_panic, rr_map_panic]
  · intro st items texts h
    show (st.render_items items >>= fun out => _) = _
    rw [h, rr_bind_ok]
  · exact parse_eq_of_sorted _
      [Token.Number 10, Token.Print, Token.Number 1, Token.Slash, Token.Number 0] _
      (by decide) (by decide) (by simp)
  · decide
  · decide

/-- Witness for C5's theorem: the success path on `PRINT "A", 1+2, "B"`
emits exactly the line `A 3 B`, and the failure path on `PRINT 1/0`. -/
theorem c5_witness :
    (Interpreter.new []).execute_statement
        (.Print [.String "A", .Expr (.Binary (.Number 1) .Add (.Number 2)), .String "B"])
      = .ok ({Interpreter.new [] with
               output := (Interpreter.new []).output ++ [String.intercalate " " ["A", "3", "B"]]},
             none) ∧
    (Interpreter.new []).execute_statement (.Print [.Expr (.Binary (.Number 1) .Div (.Number 0))])
      = .error .DivisionByZero :=
  ⟨c5_print_semantics.2.2.2.2.1 _ _ ["A", "3", "B"] (by decide),
   c5_print_semantics.1 _ _ .DivisionByZero (by decide)⟩

/- ------------------------------------------------------------------
   C2: jumps to a missing line number abort the run
   ------------------------------------------------------------------ -/

/-- C2: whenever the current statement produces a jump signal whose target
matches no line number of the program, the run loop stops at once with the
invalid-line-number error naming the target, returning the state exactly
as the failing statement left it (no further statement executes); in
particular the one-line program `10 GOTO 99` fails with invalid line
number 99 having produced no output. -/
theorem c2_invalid_jump_target_aborts :
    (∀ (st st' : Interpreter) (t : Int) (fuel : Nat) (line : Line),
       st.done = false →
       st.program[st.line_index]? = some line →
       st.execute_statement line.stmt = .ok (st', some t) →
       (∀ l ∈ st'.program, l.number ≠ t) →
       Interpreter.run_loop (fuel + 1) st = (st', some (.error (.InvalidLineNumber t)))) ∧
    (parse ("10 GOTO 99") = .ok [⟨10, .Goto 99⟩] ∧
     (Interpreter.run (Interpreter.new [⟨10, .Goto 99⟩]) 10).2
        = some (.error (.InvalidLineNumber 99)) ∧
     (Interpreter.run (Interpreter.new [⟨10, .Goto 99⟩]) 10).1.output = []) := by
  refine ⟨?_, ?_, ?_, ?_⟩
  · intro st st' t fuel line hdone hline hexec hno
    have hlt : st.line_index < st.program.length := by
      exact (List.getElem?_eq_some.mp hline).1
    have hgli : st'.get_line_index t = .error (.InvalidLineNumber t) := by
      unfold Interpreter.get_line_index
      rw [List.findIdx?_eq_none_iff.mpr (by intro l hl; simpa using hno l hl)]
    unfold Interpreter.run_loop
    rw [if_neg (by simp [hdone]; omega)]
    rw [hline]
    simp only [hexec, hgli]
  · exact parse_eq_of_sorted _ [Token.Number 10, Token.Goto, Token.Number 99] _
      (by decide) (by decide) (by simp)
  · decide
  · decide

/-- Witness for C2's theorem: applying the universal part at the
`10 GOTO 99` program. -/
theorem c2_witness :
    Interpreter.run_loop 10 (Interpreter.new [⟨10, .Goto 99⟩])
      = (Interpreter.new [⟨10, .Goto 99⟩], some (.error (.InvalidLineNumber 99))) :=
  c2_invalid_jump_target_aborts.1 (Interpreter.new [⟨10, .Goto 99⟩])
    (Interpreter.new [⟨10, .Goto 99⟩]) 99 9 ⟨10, .Goto 99⟩
    rfl (by decide) rfl (by decide)

/- ------------------------------------------------------------------
   C1: execution state across two runs of the same Evaluator
   ------------------------------------------------------------------ -/

/-- C1 counterexample: the claim that a second `run` on the same Evaluator
starts from a fresh state with all variables re-zeroed is false.  For the
program `10 PRINT A` / `20 LET A = 5`, the first run prints `0` and ends
with A = 5; the second run on the same Interpreter prints `5` (so the
output after both runs is `["0", "5"]`, not `["0", "0"]`), because `run`
does not reset the variable bank. -/
theorem c1_counterexample :
    (Interpreter.run (Interpreter.new
        [⟨10, .Print [.Expr (.Variable 'A')]⟩, ⟨20, .Let 'A' (.Number 5)⟩]) 10).2
      = some (.ok ()) ∧
    (Interpreter.run (Interpreter.new
        [⟨10, .Print [.Expr (.Variable 'A')]⟩, ⟨20, .Let 'A' (.Number 5)⟩]) 10).1.vars 'A'
      = some 5 ∧
    (Interpreter.run (Interpreter.new
        [⟨10, .Print [.Expr (.Variable 'A')]⟩, ⟨20, .Let 'A' (.Number 5)⟩]) 10).1.vars 'A'
      ≠ some 0 ∧
    (Interpreter.run
      (Interpreter.run (Interpreter.new
        [⟨10, .Print [.Expr (.Variable 'A')]⟩, ⟨20, .Let 'A' (.Number 5)⟩]) 10).1 10).1.output
      = ["0", "5"] := by
  refine ⟨by decide, by decide, by decide, by decide⟩

/-- C1 amended: a freshly constructed Interpreter has all 26 variables
zeroed and an empty array bank, but `run` itself resets only the cursor
and the termination flag — the variable bank, array bank (and emitted
output) of the same Evaluator persist into a second call to `run`;
a fresh state is obtained only by constructing a new Interpreter. -/
theorem c1_amended_state_persists_across_runs :
    (∀ (prog : List Line) (c : Char), 'A' ≤ c → c ≤ 'Z' →
       (Interpreter.new prog).vars c = some 0 ∧ (Interpreter.new prog).arrays c = none) ∧
    (∀ (st : Interpreter) (fuel : Nat), st.program ≠ [] →
       st.run fuel = Interpreter.run_loop fuel
         {st with line_index := 0, done := false}) ∧
    (∀ (st : Interpreter) (fuel : Nat), st.program = [] →
       st.run fuel = (st, some (.ok ()))) := by
  refine ⟨?_, ?_, ?_⟩
  · intro prog c h1 h2
    constructor
    · show (if 'A' ≤ c ∧ c ≤ 'Z' then some 0 else none) = some 0
      rw [if_pos ⟨h1, h2⟩]
    · rfl
  · intro st fuel h
    unfold Interpreter.run
    rw [if_neg (by simpa using h)]
  · intro st fuel h
    unfold Interpreter.run
    rw [if_pos (by simpa using h)]

/-- Witness for C1's amended theorem: variable Q of a fresh Interpreter,
and `run` on a concrete nonempty and a concrete empty program. -/
theorem c1_witness :
    ((Interpreter.new [⟨10, .Goto 10⟩]).vars 'Q' = some 0 ∧
     (Interpreter.new [⟨10, .Goto 10⟩]).arrays 'Q' = none) ∧
    Interpreter.run (Interpreter.new [⟨10, .Goto 10⟩]) 3
      = Interpreter.run_loop 3
          {Interpreter.new [⟨10, .Goto 10⟩] with line_index := 0, done := false} ∧
    Interpreter.run (Interpreter.new []) 3 = (Interpreter.new [], some (.ok ())) :=
  ⟨c1_amended_state_persists_across_runs.1 [⟨10, .Goto 10⟩] 'Q' (by decide) (by decide),
   c1_amended_state_persists_across_runs.2.1 _ 3 (by decide),
   c1_amended_state_persists_across_runs.2.2 _ 3 rfl⟩


/- ------------------------------------------------------------------
   C9: lexical error positions count characters consumed
   ------------------------------------------------------------------ -/

/-- C9 counterexample: for the input `"@"`, whose first character is
already invalid, the reported position is 1 (the count of characters
consumed including the offending one), not 0 as claimed: `position` is
incremented by `advance` before the error is built. -/
theorem c9_counterexample :
    tokenize ("@") = .error ⟨"Unexpected character: @", 1⟩ ∧ (1 : Nat) ≠ 0 := by
  refine ⟨by decide, by decide⟩

/-- If the remaining input contains no closing quote, the string-literal
loop consumes it entirely and reports the unterminated-string error at
`pos` plus the number of characters consumed. -/
theorem lex_string_body_unterminated :
    ∀ (cs s : List Char) (pos : Nat), '"' ∉ cs →
      lex_string_body s cs pos = .error ⟨"Unterminated string", pos + cs.length⟩ := by
  intro cs
  induction cs with
  | nil =>
    intro s pos _
    rfl
  | cons c cs ih =>
    intro s pos hnin
    have hc : c ≠ '"' := fun h => hnin (by rw [h]; exact List.mem_cons_self _ _)
    rw [lex_string_body, if_neg hc, ih _ _ (fun h => hnin (List.mem_cons_of_mem _ h))]
    have hlen : pos + 1 + cs.length = pos + (c :: cs).length := by
      rw [List.length_cons]
      omega
    rw [hlen]

/-- Unfolding of `tokenize_char` on the opening quote: consume the quote
and enter the string-literal loop. -/
theorem tokenize_char_quote (k : List Char → Nat → Except LexerError (List Token))
    (rest : List Char) (pos : Nat) :
    tokenize_char k '"' rest pos
      = lex_string_body [] rest (pos + 1) >>= fun res =>
          (Token.String (String.mk res.1) :: ·) <$> k res.2.1 res.2.2 := by
  rw [tokenize_char]
  rw [if_neg (by decide), if_neg (by decide), if_neg (by decide), if_neg (by decide),
      if_neg (by decide), if_neg (by decide), if_neg (by decide), if_neg (by decide),
      if_neg (by decide), if_neg (by decide), if_neg (by decide), if_neg (by decide)]
  rw [if_pos rfl]

theorem letter_alnum (c : Char) (h : is_ascii_letter c = true) :
    is_ascii_alphanumeric c = true := by
  rw [is_ascii_alphanumeric, Bool.or_assoc]
  rw [is_ascii_letter] at h
  rw [h, Bool.or_true]

/-- Unfolding of `tokenize_char` on an ASCII letter: collect the
alphanumeric run (upper-casing it) and classify the word. -/
theorem tokenize_char_letter (k : List Char → Nat → Except LexerError (List Token))
    (c : Char) (rest : List Char) (pos : Nat) (h : is_ascii_letter c = true) :
    tokenize_char k c rest pos
      = (keyword_token (lex_word [to_ascii_uppercase c] rest (pos + 1)).1
           (lex_word [to_ascii_uppercase c] rest (pos + 1)).2.2 >>= fun t =>
         (t :: ·) <$> k (lex_word [to_ascii_uppercase c] rest (pos + 1)).2.1
           (lex_word [to_ascii_uppercase c] rest (pos + 1)).2.2) := by
  have hr : (65 ≤ c.toNat ∧ c.toNat ≤ 90) ∨ (97 ≤ c.toNat ∧ c.toNat ≤ 122) := by
    simpa only [is_ascii_letter, Bool.or_eq_true, Bool.and_eq_true, decide_eq_true_eq] using h
  have hne : ∀ (x : Char), x.toNat < 65 ∨ (90 < x.toNat ∧ x.toNat < 97) ∨ 122 < x.toNat →
      c ≠ x := by
    intro x hx heq
    subst heq
    omega
  have hws : is_rust_whitespace c = false := by
    simp only [is_rust_whitespace, Bool.or_eq_false_iff, beq_eq_false_iff_ne, ne_eq,
               Bool.and_eq_false_iff, decide_eq_false_iff_not, not_le]
    omega
  have hdig : is_ascii_digit c = false := by
    simp only [is_ascii_digit, Bool.and_eq_false_iff, decide_eq_false_iff_not, not_le]
    omega
  rw [tokenize_char]
  rw [if_neg (by simp [hws])]
  rw [if_neg (by rintro (h1 | h1) <;> exact hne _ (by decide) h1)]
  rw [if_neg (hne '+' (by decide)), if_neg (hne '-' (by decide)), if_neg (hne '*' (by decide)),
      if_neg (hne '/' (by decide)), if_neg (hne '(' (by decide)), if_neg (hne ')' (by decide)),
      if_neg (hne ',' (by decide)), if_neg (hne '=' (by decide)), if_neg (hne '<' (by decide)),
      if_neg (hne '>' (by decide)), if_neg (hne '"' (by decide))]
  rw [if_neg (by simp [hdig])]
  rw [if_pos h]

/-- A string built from a character list is distinguished from any string
of a different length. -/
theorem string_mk_ne_of_length (l : List Char) (s : String) (n : Nat)
    (hl : l.length = n) (hs : s.data.length ≠ n) : String.mk l ≠ s := by
  intro h
  apply hs
  rw [← hl, ← h]

/-- The only two-letter word equal to `"IF"` is `IF` itself. -/
theorem string_mk_eq_if (u1 u2 : Char) (h : String.mk ([u1] ++ [u2]) = ("IF")) :
    u1 = 'I' ∧ u2 = 'F' := by
  have h2 : [u1] ++ [u2] = ("IF").data := congrArg String.data h
  have h3 : ("IF").data = ['I', 'F'] := by decide
  rw [h3] at h2
  have h4 : [u1, u2] = ['I', 'F'] := h2
  injection h4 with ha h5
  injection h5 with hb
  exact ⟨ha, hb⟩

/-- C9 amended: every lexical error's position is the number of characters
consumed (counted in characters, not bytes) up to and including the point
of failure, for each of the three error kinds.  Unexpected character: any
invalid first character (not whitespace, not operator/punctuation/quote,
not digit, not letter) reports `pos + 1` when scanning starts at `pos`,
hence 1 — not 0 — from the entry point.  Unterminated string: the opening
quote and the whole unclosed remainder are consumed, so the error reports
the total consumed count (from the entry point, `1 + rest.length`).
Invalid identifier: the error reports the position after the whole
alphanumeric run was consumed (from the entry point, 2 for any two-letter
word that is not `IF`). -/
theorem c9_amended_error_position :
    (∀ (c : Char) (rest : List Char) (pos fuel : Nat),
       is_rust_whitespace c = false →
       c ∉ ['+', '-', '*', '/', '(', ')', ',', '=', '<', '>', '"'] →
       is_ascii_digit c = false →
       is_ascii_letter c = false →
       tokenize_aux (fuel + 1) (c :: rest) pos
         = .error ⟨"Unexpected character: " ++ String.mk [c], pos + 1⟩) ∧
    (∀ (c : Char) (rest : List Char),
       is_rust_whitespace c = false →
       c ∉ ['+', '-', '*', '/', '(', ')', ',', '=', '<', '>', '"'] →
       is_ascii_digit c = false →
       is_ascii_letter c = false →
       tokenize (String.mk (c :: rest))
         = .error ⟨"Unexpected character: " ++ String.mk [c], 1⟩) ∧
    (∀ (s cs : List Char) (pos : Nat), '"' ∉ cs →
       lex_string_body s cs pos = .error ⟨"Unterminated string", pos + cs.length⟩) ∧
    (∀ (cs : List Char), '"' ∉ cs →
       tokenize (String.mk ('"' :: cs)) = .error ⟨"Unterminated string", 1 + cs.length⟩) ∧
    (∀ (kw : List Char) (pos : Nat),
       String.mk kw ≠ ("PRINT") → String.mk kw ≠ ("LET") → String.mk kw ≠ ("GOTO") →
       String.mk kw ≠ ("IF") → String.mk kw ≠ ("THEN") → String.mk kw ≠ ("END") →
       String.mk kw ≠ ("DIM") → kw.length ≠ 1 →
       keyword_token kw pos = .error ⟨"Invalid identifier: " ++ String.mk kw, pos⟩) ∧
    (∀ (c1 c2 : Char),
       is_ascii_letter c1 = true → is_ascii_letter c2 = true →
       ¬(to_ascii_uppercase c1 = 'I' ∧ to_ascii_uppercase c2 = 'F') →
       tokenize (String.mk [c1, c2])
         = .error ⟨"Invalid identifier: "
             ++ String.mk [to_ascii_uppercase c1, to_ascii_uppercase c2], 2⟩) := by
  have main : ∀ (c : Char) (rest : List Char) (pos fuel : Nat),
       is_rust_whitespace c = false →
       c ∉ ['+', '-', '*', '/', '(', ')', ',', '=', '<', '>', '"'] →
       is_ascii_digit c = false →
       is_ascii_letter c = false →
       tokenize_aux (fuel + 1) (c :: rest) pos
         = .error ⟨"Unexpected character: " ++ String.mk [c], pos + 1⟩ := by
    intro c rest pos fuel hws hni hd hl
    have hnl : c ≠ '\n' := by
      intro h
      rw [h] at hws
      exact absurd hws (by decide)
    have hnr : c ≠ '\r' := by
      intro h
      rw [h] at hws
      exact absurd hws (by decide)
    simp only [List.mem_cons, List.mem_singleton, not_or] at hni
    obtain ⟨h1, h2, h3, h4, h5, h6, h7, h8, h9, h10, h11, -⟩ := hni
    rw [tokenize_aux, tokenize_step, tokenize_char]
    rw [if_neg (by simp [hws])]
    rw [if_neg (by simp [hnl, hnr])]
    rw [if_neg h1, if_neg h2, if_neg h3, if_neg h4, if_neg h5, if_neg h6, if_neg h7,
        if_neg h8, if_neg h9, if_neg h10, if_neg h11]
    rw [if_neg (by simp [hd]), if_neg (by simp [hl])]
  have hkt : ∀ (kw : List Char) (pos : Nat),
      String.mk kw ≠ ("PRINT") → String.mk kw ≠ ("LET") → String.mk kw ≠ ("GOTO") →
      String.mk kw ≠ ("IF") → String.mk kw ≠ ("THEN") → String.mk kw ≠ ("END") →
      String.mk kw ≠ ("DIM") → kw.length ≠ 1 →
      keyword_token kw pos = .error ⟨"Invalid identifier: " ++ String.mk kw, pos⟩ := by
    intro kw pos h1 h2 h3 h4 h5 h6 h7 h8
    rw [keyword_token, if_neg h1, if_neg h2, if_neg h3, if_neg h4, if_neg h5, if_neg h6,
        if_neg h7, if_neg h8]
  refine ⟨main, ?_, ?_, ?_, hkt, ?_⟩
  · intro c rest hws hni hd hl
    show tokenize_aux ((c :: rest).length + 1) (c :: rest) 0 = _
    rw [List.length_cons]
    exact main c rest 0 (rest.length + 1) hws hni hd hl
  · intro s cs pos hq
    exact lex_string_body_unterminated cs s pos hq
  · intro cs hq
    show tokenize_aux (('"' :: cs).length + 1) ('"' :: cs) 0 = _
    rw [List.length_cons]
    rw [tokenize_aux, tokenize_step, tokenize_char_quote]
    rw [lex_string_body_unterminated cs [] (0 + 1) hq]
    rw [except_bind_error]
  · intro c1 c2 h1 h2 hnif
    show tokenize_aux ([c1, c2].length + 1) [c1, c2] 0 = _
    rw [tokenize_aux, tokenize_step, tokenize_char_letter _ c1 [c2] 0 h1]
    rw [lex_word, if_pos (letter_alnum c2 h2), lex_word]
    rw [hkt ([to_ascii_uppercase c1] ++ [to_ascii_uppercase c2]) (0 + 1 + 1)
        (string_mk_ne_of_length _ _ 2 rfl (by decide)) (string_mk_ne_of_length _ _ 2 rfl (by decide))
        (string_mk_ne_of_length _ _ 2 rfl (by decide)) (fun h => hnif (string_mk_eq_if _ _ h))
        (string_mk_ne_of_length _ _ 2 rfl (by decide)) (string_mk_ne_of_length _ _ 2 rfl (by decide))
        (string_mk_ne_of_length _ _ 2 rfl (by decide)) (by show (2 : Nat) ≠ 1 ; decide)]
    rw [except_bind_error]
    rfl

/-- Witness for C9's amended theorem: an unexpected character (both at an
arbitrary scan position and from the entry point), an unterminated string
(both inside the literal loop and from the entry point), and an invalid
two-letter identifier (both at the keyword classifier and from the entry
point). -/
theorem c9_witness :
    tokenize_aux 5 ['@'] 7 = .error ⟨"Unexpected character: @", 8⟩ ∧
    tokenize (String.mk ['?', '1']) = .error ⟨"Unexpected character: ?", 1⟩ ∧
    lex_string_body ['h'] ['i', '!'] 3 = .error ⟨"Unterminated string", 5⟩ ∧
    tokenize (String.mk ['"', 'a', 'b', 'c']) = .error ⟨"Unterminated string", 4⟩ ∧
    keyword_token ['X', 'Y'] 9 = .error ⟨"Invalid identifier: XY", 9⟩ ∧
    tokenize (String.mk ['a', 'b']) = .error ⟨"Invalid identifier: AB", 2⟩ :=
  ⟨c9_amended_error_position.1 '@' [] 7 4 (by decide) (by decide) (by decide) (by decide),
   c9_amended_error_position.2.1 '?' ['1'] (by decide) (by decide) (by decide) (by decide),
   c9_amended_error_position.2.2.1 ['h'] ['i', '!'] 3 (by decide),
   c9_amended_error_position.2.2.2.1 ['a', 'b', 'c'] (by decide),
   c9_amended_error_position.2.2.2.2.1 ['X', 'Y'] 9 (by decide) (by decide) (by decide)
     (by decide) (by decide) (by decide) (by decide) (by decide),
   c9_amended_error_position.2.2.2.2.2 'a' 'b' (by decide) (by decide) (by decide)⟩

/- ------------------------------------------------------------------
   C4: the parser sorts lines with a stable sort, keeping duplicates
   ------------------------------------------------------------------ -/
/-- Stability of the parser's sort, phrased per line number: the sublist of
lines carrying any given number is unchanged by the sort. -/
theorem mergeSort_filter_number (l : List Line) (n : Int) :
    (l.mergeSort (fun a b => decide (a.number ≤ b.number))).filter
        (fun x => decide (x.number = n))
      = l.filter (fun x => decide (x.number = n)) := by
  have htrans : ∀ (a b c : Line), decide (a.number ≤ b.number) = true →
      decide (b.number ≤ c.number) = true → decide (a.number ≤ c.number) = true := by
    intro a b c h1 h2
    simp only [decide_eq_true_eq] at *
    omega
  have htotal : ∀ (a b : Line),
      (decide (a.number ≤ b.number) || decide (b.number ≤ a.number)) = true := by
    intro a b
    simp only [Bool.or_eq_true, decide_eq_true_eq]
    omega
  have hA : ∀ x ∈ l.filter (fun x => decide (x.number = n)), x.number = n := by
    intro x hx
    simpa using List.of_mem_filter hx
  have hpair : (l.filter (fun x => decide (x.number = n))).Pairwise
      (fun a b => decide (a.number ≤ b.number) = true) := by
    apply List.pairwise_of_forall_mem_list
    intro a ha b hb
    simp [hA a ha, hA b hb]
  have hsub := List.sublist_mergeSort htrans htotal hpair (List.filter_sublist l)
  have hsubB := hsub.filter (fun x => decide (x.number = n))
  have hidem : (l.filter (fun x => decide (x.number = n))).filter
      (fun x => decide (x.number = n)) = l.filter (fun x => decide (x.number = n)) :=
    List.filter_eq_self.mpr (fun a ha => by simp [hA a ha])
  rw [hidem] at hsubB
  have hperm := (List.mergeSort_perm l (fun a b => decide (a.number ≤ b.number))).filter
      (fun x => decide (x.number = n))
  exact (hsubB.eq_of_length hperm.length_eq.symm).symm

/-- C4: on every token sequence, the program's lines are collected and then
stably sorted ascending by line number: whenever `parse_program` succeeds,
its output is sorted, is a permutation of the collected lines (so
duplicate line numbers are not deduplicated), and for each line number the
subsequence of lines carrying it is exactly the one collected, in original
relative order (stability); in particular, parsing two lines both numbered
10 keeps both, in original relative order. -/
theorem c4_parse_program_stable_sort :
    (∀ (ts : List Token) (collected lines : List Line),
       parse_program_loop (parser_fuel ts) [] ts = .ok collected →
       parse_program ts = .ok lines →
       lines.Pairwise (fun a b => a.number ≤ b.number) ∧
       lines.Perm collected ∧
       (∀ n : Int, lines.filter (fun l => decide (l.number = n))
                    = collected.filter (fun l => decide (l.number = n)))) ∧
    parse ("10 PRINT \"A\"\n10 PRINT \"B\"")
      = .ok [⟨10, .Print [.String "A"]⟩, ⟨10, .Print [.String "B"]⟩] := by
  constructor
  · intro ts collected lines hloop hparse
    have hl : lines = collected.mergeSort (fun a b => decide (a.number ≤ b.number)) := by
      unfold parse_program at hparse
      rw [hloop] at hparse
      simpa using hparse.symm
    subst hl
    have htrans : ∀ (a b c : Line), decide (a.number ≤ b.number) = true →
        decide (b.number ≤ c.number) = true → decide (a.number ≤ c.number) = true := by
      intro a b c h1 h2
      simp only [decide_eq_true_eq] at *
      omega
    have htotal : ∀ (a b : Line),
        (decide (a.number ≤ b.number) || decide (b.number ≤ a.number)) = true := by
      intro a b
      simp only [Bool.or_eq_true, decide_eq_true_eq]
      omega
    refine ⟨?_, List.mergeSort_perm collected _, fun n => mergeSort_filter_number collected n⟩
    have := List.sorted_mergeSort htrans htotal collected
    exact this.imp (by simp)
  · exact parse_eq_of_sorted _
      [Token.Number 10, Token.Print, Token.String "A",
       Token.Number 10, Token.Print, Token.String "B"] _
      (by decide) (by decide) (by simp)

/-- Witness for C4's theorem: on the two-line duplicate program both lines
numbered 10 survive the sort in their original relative order. -/
theorem c4_witness :
    ([⟨10, .Print [.String "A"]⟩, ⟨10, .Print [.String "B"]⟩] : List Line).Pairwise
        (fun a b => a.number ≤ b.number) ∧
    ([⟨10, .Print [.String "A"]⟩, ⟨10, .Print [.String "B"]⟩] : List Line).Perm
        [⟨10, .Print [.String "A"]⟩, ⟨10, .Print [.String "B"]⟩] ∧
    ([⟨10, .Print [.String "A"]⟩, ⟨10, .Print [.String "B"]⟩] : List Line).filter
        (fun l => decide (l.number = 10))
      = ([⟨10, .Print [.String "A"]⟩, ⟨10, .Print [.String "B"]⟩] : List Line).filter
        (fun l => decide (l.number = 10)) := by
  have h := c4_parse_program_stable_sort.1
    [Token.Number 10, Token.Print, Token.String "A",
     Token.Number 10, Token.Print, Token.String "B"]
    [⟨10, .Print [.String "A"]⟩, ⟨10, .Print [.String "B"]⟩]
    [⟨10, .Print [.String "A"]⟩, ⟨10, .Print [.String "B"]⟩]
    (by decide)
    (parse_program_eq_of_sorted _ _ (by decide) (by simp))
  exact ⟨h.1, h.2.1, h.2.2 10⟩

/- ------------------------------------------------------------------
   C8: tokenizing decimal text of an integer
   ------------------------------------------------------------------ -/

/-- The decimal text of a natural number: its base-10 digits,
most-significant first ("0" for 0). -/
def decimalText (n : Nat) : List Char :=
  if n = 0 then ['0']
  else ((Nat.digits 10 n).map (fun d => Char.ofNat (48 + d))).reverse

theorem char_toNat_digit (d : Nat) (hd : d < 10) : (Char.ofNat (48 + d)).toNat = 48 + d := by
  have hv : Nat.isValidChar (48 + d) := Or.inl (by omega)
  rw [Char.ofNat, dif_pos hv]
  simp [Char.toNat, Char.ofNatAux, UInt32.toNat, BitVec.toNat_ofNatLt]

theorem is_ascii_digit_digitChar (d : Nat) (hd : d < 10) :
    is_ascii_digit (Char.ofNat (48 + d)) = true := by
  simp only [is_ascii_digit, char_toNat_digit d hd, Bool.and_eq_true, decide_eq_true_eq]
  omega

theorem wrap32_eq_self (x : Int) (h1 : -(2 ^ 31) ≤ x) (h2 : x < 2 ^ 31) : wrap32 x = x := by
  unfold wrap32
  rw [Int.emod_eq_of_lt (by omega) (by omega)]
  omega

theorem foldl_digit_le (ds : List Nat) (acc : Int) (h : 0 ≤ acc) :
    acc ≤ List.foldl (fun (a : Int) (d : Nat) => a * 10 + (d : Int)) acc ds := by
  induction ds generalizing acc with
  | nil => simp
  | cons d ds ih =>
    simp only [List.foldl_cons]
    have h1 : acc ≤ acc * 10 + (d : Int) := by omega
    exact le_trans h1 (ih _ (by omega))

theorem lex_digits_all : ∀ (ds : List Nat) (acc : Int) (pos : Nat),
    (∀ d ∈ ds, d < 10) → 0 ≤ acc →
    List.foldl (fun (a : Int) (d : Nat) => a * 10 + (d : Int)) acc ds < 2 ^ 31 →
    lex_digits acc (ds.map (fun d => Char.ofNat (48 + d))) pos
      = (List.foldl (fun (a : Int) (d : Nat) => a * 10 + (d : Int)) acc ds, [], pos + ds.length) := by
  intro ds
  induction ds with
  | nil =>
    intro acc pos _ _ _
    simp only [List.map_nil, List.foldl_nil, List.length_nil, Nat.add_zero]
    rw [lex_digits]
  | cons d ds ih =>
    intro acc pos hds hacc hbound
    have hd : d < 10 := hds d (List.mem_cons_self d ds)
    have hcast : (((Char.ofNat (48 + d)).toNat - 48 : Nat) : Int) = (d : Int) := by
      rw [char_toNat_digit d hd]
      simp
    simp only [List.map_cons, List.foldl_cons, List.length_cons]
    rw [lex_digits, if_pos (is_ascii_digit_digitChar d hd), hcast]
    have hb2 : List.foldl (fun (a : Int) (d : Nat) => a * 10 + (d : Int)) (acc * 10 + (d : Int)) ds < 2 ^ 31 := by
      simpa only [List.foldl_cons] using hbound
    have hle : acc * 10 + (d : Int)
        ≤ List.foldl (fun (a : Int) (d : Nat) => a * 10 + (d : Int)) (acc * 10 + (d : Int)) ds :=
      foldl_digit_le ds (acc * 10 + (d : Int)) (by omega)
    have hw1 : wrap32 (acc * 10) = acc * 10 := wrap32_eq_self _ (by omega) (by omega)
    rw [hw1]
    have hw2 : wrap32 (acc * 10 + (d : Int)) = acc * 10 + (d : Int) :=
      wrap32_eq_self _ (by omega) (by omega)
    rw [hw2]
    rw [ih (acc * 10 + (d : Int)) (pos + 1) (fun x hx => hds x (List.mem_cons_of_mem d hx))
        (by omega) hb2]
    have hlen : pos + 1 + ds.length = pos + (ds.length + 1) := by omega
    rw [hlen]

theorem foldl_int_nat (ds : List Nat) (acc : Nat) :
    List.foldl (fun (a : Int) (d : Nat) => a * 10 + (d : Int)) (acc : Int) ds
      = ((List.foldl (fun a d => a * 10 + d) acc ds : Nat) : Int) := by
  induction ds generalizing acc with
  | nil => simp
  | cons d ds ih =>
    simp only [List.foldl_cons]
    rw [show ((acc : Int) * 10 + (d : Int)) = (((acc * 10 + d : Nat)) : Int) by push_cast; ring]
    exact ih (acc * 10 + d)

theorem foldl_reverse_ofDigits (L : List Nat) (acc : Nat) :
    List.foldl (fun a d => a * 10 + d) acc L.reverse
      = acc * 10 ^ L.length + Nat.ofDigits 10 L := by
  induction L generalizing acc with
  | nil => simp
  | cons d L ih =>
    simp only [List.reverse_cons, List.foldl_append, List.foldl_cons, List.foldl_nil, ih,
               Nat.ofDigits_cons, List.length_cons]
    ring

theorem tokenize_char_digit (k : List Char → Nat → Except LexerError (List Token))
    (c : Char) (rest : List Char) (pos : Nat) (h : is_ascii_digit c = true) :
    tokenize_char k c rest pos
      = (Token.Number (lex_digits ((c.toNat - 48 : Nat) : Int) rest (pos + 1)).1 :: ·) <$>
          k (lex_digits ((c.toNat - 48 : Nat) : Int) rest (pos + 1)).2.1
            (lex_digits ((c.toNat - 48 : Nat) : Int) rest (pos + 1)).2.2 := by
  have h48 : 48 ≤ c.toNat ∧ c.toNat ≤ 57 := by
    simpa only [is_ascii_digit, Bool.and_eq_true, decide_eq_true_eq] using h
  have hne : ∀ (x : Char), x.toNat < 48 ∨ 57 < x.toNat → c ≠ x := by
    intro x hx heq
    subst heq
    omega
  have hws : is_rust_whitespace c = false := by
    simp only [is_rust_whitespace, Bool.or_eq_false_iff, beq_eq_false_iff_ne, ne_eq,
               Bool.and_eq_false_iff, decide_eq_false_iff_not, not_le]
    omega
  rw [tokenize_char]
  rw [if_neg (by simp [hws])]
  rw [if_neg (by rintro (h1 | h1) <;> exact hne _ (by decide) h1)]
  rw [if_neg (hne '+' (by decide)), if_neg (hne '-' (by decide)), if_neg (hne '*' (by decide)),
      if_neg (hne '/' (by decide)), if_neg (hne '(' (by decide)), if_neg (hne ')' (by decide)),
      if_neg (hne ',' (by decide)), if_neg (hne '=' (by decide)), if_neg (hne '<' (by decide)),
      if_neg (hne '>' (by decide)), if_neg (hne '"' (by decide))]
  rw [if_pos h]

/-- C8: tokenizing the decimal text of any non-negative integer
representable in the 32-bit signed range yields the single integer token
carrying exactly that value. -/
theorem c8_tokenize_decimal (n : Nat) (h : n < 2 ^ 31) :
    tokenize (String.mk (decimalText n)) = .ok [Token.Number (n : Int)] := by
  by_cases h0 : n = 0
  · subst h0
    decide
  · have hdig : Nat.digits 10 n ≠ [] := Nat.digits_ne_nil_iff_ne_zero.mpr h0
    have hlt : ∀ d ∈ Nat.digits 10 n, d < 10 := fun d hd => Nat.digits_lt_base (by norm_num) hd
    have hdt : decimalText n
        = (Nat.digits 10 n).reverse.map (fun d => Char.ofNat (48 + d)) := by
      simp [decimalText, h0, List.map_reverse]
    obtain ⟨d0, rest, hB⟩ : ∃ d0 rest, (Nat.digits 10 n).reverse = d0 :: rest := by
      cases hBv : (Nat.digits 10 n).reverse with
      | nil => exact absurd (by simpa using congrArg List.reverse hBv) hdig
      | cons a b => exact ⟨a, b, rfl⟩
    have hd0 : d0 < 10 := hlt d0 (by rw [← List.mem_reverse, hB]; exact List.mem_cons_self _ _)
    have hrest : ∀ d ∈ rest, d < 10 := fun d hd =>
      hlt d (by rw [← List.mem_reverse, hB]; exact List.mem_cons_of_mem _ hd)
    have hfold : List.foldl (fun a d => a * 10 + d) d0 rest = n := by
      have h1 : List.foldl (fun a d => a * 10 + d) 0 ((Nat.digits 10 n).reverse) = n := by
        rw [foldl_reverse_ofDigits, Nat.ofDigits_digits]
        simp
      rw [hB] at h1
      simpa using h1
    have hfoldInt : List.foldl (fun (a : Int) (d : Nat) => a * 10 + (d : Int)) ((d0 : Nat) : Int) rest = (n : Int) := by
      rw [foldl_int_nat, hfold]
    show tokenize_aux ((decimalText n).length + 1) (decimalText n) 0 = _
    rw [hdt, hB]
    simp only [List.map_cons, List.length_cons, List.length_map]
    rw [tokenize_aux, tokenize_step]
    rw [tokenize_char_digit _ _ _ _ (is_ascii_digit_digitChar d0 hd0)]
    have hc : (((Char.ofNat (48 + d0)).toNat - 48 : Nat) : Int) = ((d0 : Nat) : Int) := by
      rw [char_toNat_digit d0 hd0]
      simp
    rw [hc]
    have hlex : lex_digits ((d0 : Nat) : Int) (rest.map (fun d => Char.ofNat (48 + d))) (0 + 1)
        = ((n : Int), [], 0 + 1 + rest.length) := by
      rw [lex_digits_all rest ((d0 : Nat) : Int) (0 + 1) hrest (by omega)
          (by rw [hfoldInt]; exact_mod_cast h)]
      rw [hfoldInt]
    rw [hlex]
    rfl

/-- Witness for C8's theorem at 40962: its decimal text tokenizes to the
single token `Number 40962`. -/
theorem c8_witness :
    tokenize (String.mk (decimalText 40962)) = .ok [Token.Number (40962 : Int)] :=
  c8_tokenize_decimal 40962 (by norm_num)

/- ------------------------------------------------------------------
   C7: variables pre-seeded to zero; undefined-variable is unreachable
   ------------------------------------------------------------------ -/

/- Well-formedness: every variable reference names a letter A-Z. -/

/-- A variable letter as produced by the front-end: an uppercase A-Z. -/
def var_ok (c : Char) : Prop := 'A' ≤ c ∧ c ≤ 'Z'

theorem char_le_iff_toNat (a b : Char) : a ≤ b ↔ a.toNat ≤ b.toNat := by
  rfl

theorem var_ok_iff_toNat (c : Char) : var_ok c ↔ 65 ≤ c.toNat ∧ c.toNat ≤ 90 := by
  unfold var_ok
  rw [char_le_iff_toNat, char_le_iff_toNat]
  constructor
  · rintro ⟨h1, h2⟩
    exact ⟨h1, h2⟩
  · rintro ⟨h1, h2⟩
    exact ⟨h1, h2⟩

/-- Well-formedness of a token: any identifier names an uppercase letter. -/
def token_vars_ok : Token → Prop
  | .Ident c => var_ok c
  | _ => True

/-- All identifiers in a token sequence name uppercase letters. -/
def tokens_vars_ok (ts : List Token) : Prop := ∀ t ∈ ts, token_vars_ok t

/-- Every variable reference in an expression names an uppercase letter. -/
def expr_vars_ok : Expr → Prop
  | .Number _ => True
  | .Variable c => var_ok c
  | .ArrayAccess _ e => expr_vars_ok e
  | .Binary l _ r => expr_vars_ok l ∧ expr_vars_ok r

/-- Every variable reference in a PRINT item names an uppercase letter. -/
def item_vars_ok : PrintItem → Prop
  | .Expr e => expr_vars_ok e
  | .String _ => True

/-- Every variable reference read by a statement names an uppercase letter. -/
def stmt_vars_ok : Stmt → Prop
  | .Print items => ∀ it ∈ items, item_vars_ok it
  | .Let _ e => expr_vars_ok e
  | .LetArray _ i v => expr_vars_ok i ∧ expr_vars_ok v
  | .If cond _ => expr_vars_ok cond
  | _ => True

/-- Every variable reference in a program names an uppercase letter. -/
def prog_vars_ok (p : List Line) : Prop := ∀ l ∈ p, stmt_vars_ok l.stmt

/-- The variable bank has an entry for every letter A-Z. -/
def bank_ok (st : Interpreter) : Prop := ∀ c, var_ok c → (st.vars c).isSome

/- Lexer: every `Ident` token it produces names an uppercase letter. -/

theorem char_toNat_ofNat_small (m : Nat) (hm : m < 0xd800) : (Char.ofNat m).toNat = m := by
  have hv : Nat.isValidChar m := Or.inl hm
  rw [Char.ofNat, dif_pos hv]
  simp [Char.toNat, Char.ofNatAux, UInt32.toNat, BitVec.toNat_ofNatLt]

theorem to_ascii_uppercase_var_ok (c : Char) (h : is_ascii_letter c = true) :
    var_ok (to_ascii_uppercase c) := by
  have h2 : (65 ≤ c.toNat ∧ c.toNat ≤ 90) ∨ (97 ≤ c.toNat ∧ c.toNat ≤ 122) := by
    simpa only [is_ascii_letter, Bool.or_eq_true, Bool.and_eq_true, decide_eq_true_eq] using h
  rw [var_ok_iff_toNat]
  unfold to_ascii_uppercase
  rcases h2 with h2 | h2
  · rw [if_neg (by omega)]
    omega
  · rw [if_pos (by omega)]
    rw [char_toNat_ofNat_small (c.toNat - 32) (by omega)]
    omega

theorem except_map_eq_ok {ε α β : Type} {f : α → β} {x : Except ε α} {b : β}
    (h : f <$> x = .ok b) : ∃ a, x = .ok a ∧ b = f a := by
  cases x with
  | ok a =>
    rw [except_map_ok] at h
    exact ⟨a, rfl, by injection h with h2; rw [h2]⟩
  | error e =>
    rw [except_map_error] at h
    exact absurd h (by simp)

theorem except_bind_eq_ok {ε α β : Type} {x : Except ε α} {f : α → Except ε β} {b : β}
    (h : (x >>= f) = .ok b) : ∃ a, x = .ok a ∧ f a = .ok b := by
  cases x with
  | ok a => exact ⟨a, rfl, h⟩
  | error e => exact absurd h (by simp [except_bind_error])

theorem lex_word_fst : ∀ (cs : List Char) (kw0 : List Char) (pos : Nat),
    ∃ suffix, (lex_word kw0 cs pos).1 = kw0 ++ suffix := by
  intro cs
  induction cs with
  | nil => exact fun kw0 pos => ⟨[], by simp [lex_word]⟩
  | cons c rest ih =>
    intro kw0 pos
    rw [lex_word]
    by_cases hc : is_ascii_alphanumeric c = true
    · rw [if_pos hc]
      obtain ⟨suffix, hs⟩ := ih (kw0 ++ [to_ascii_uppercase c]) (pos + 1)
      exact ⟨to_ascii_uppercase c :: suffix, by simp [hs]⟩
    · rw [if_neg hc]
      exact ⟨[], by simp⟩

theorem keyword_token_vars_ok (c : Char) (hc : is_ascii_letter c = true)
    (cs : List Char) (pos pos2 : Nat) (t : Token)
    (h : keyword_token (lex_word [to_ascii_uppercase c] cs pos).1 pos2 = .ok t) :
    token_vars_ok t := by
  obtain ⟨suffix, hs⟩ := lex_word_fst cs [to_ascii_uppercase c] pos
  unfold keyword_token at h
  rw [hs] at h
  repeat' split at h
  all_goals first
    | exact Except.noConfusion h
    | (injection h with h2; rw [← h2]; trivial)
    | (injection h with h2
       rw [← h2]
       rename_i hlen
       have hsuf : suffix = [] := by simpa using hlen
       subst hsuf
       simpa [token_vars_ok] using to_ascii_uppercase_var_ok c hc)

theorem tokens_vars_ok_nil : tokens_vars_ok [] := by
  intro t ht
  cases ht

theorem tokens_vars_ok_cons {t : Token} {ts : List Token}
    (h1 : token_vars_ok t) (h2 : tokens_vars_ok ts) : tokens_vars_ok (t :: ts) := by
  intro u hu
  cases hu with
  | head => exact h1
  | tail _ hu => exact h2 u hu

theorem tokens_vars_ok_tail {t : Token} {ts : List Token}
    (h : tokens_vars_ok (t :: ts)) : tokens_vars_ok ts :=
  fun u hu => h u (List.mem_cons_of_mem t hu)

theorem tokenize_char_vars_ok (k : List Char → Nat → Except LexerError (List Token))
    (c : Char) (rest : List Char) (pos : Nat) (ts : List Token)
    (hk : ∀ cs2 pos2 ts2, k cs2 pos2 = .ok ts2 → tokens_vars_ok ts2)
    (h : tokenize_char k c rest pos = .ok ts) : tokens_vars_ok ts := by
  unfold tokenize_char at h
  by_cases h1 : is_rust_whitespace c = true ∧ c ≠ '\n'
  · rw [if_pos h1] at h
    exact hk _ _ _ h
  rw [if_neg h1] at h
  by_cases h2 : c = '\n' ∨ c = '\r'
  · rw [if_pos h2] at h
    exact hk _ _ _ h
  rw [if_neg h2] at h
  by_cases hp : c = '+'
  · rw [if_pos hp] at h
    obtain ⟨ts2, hk2, hts⟩ := except_map_eq_ok h
    subst hts
    exact tokens_vars_ok_cons trivial (hk _ _ _ hk2)
  rw [if_neg hp] at h
  by_cases hm : c = '-'
  · rw [if_pos hm] at h
    obtain ⟨ts2, hk2, hts⟩ := except_map_eq_ok h
    subst hts
    exact tokens_vars_ok_cons trivial (hk _ _ _ hk2)
  rw [if_neg hm] at h
  by_cases hst : c = '*'
  · rw [if_pos hst] at h
    obtain ⟨ts2, hk2, hts⟩ := except_map_eq_ok h
    subst hts
    exact tokens_vars_ok_cons trivial (hk _ _ _ hk2)
  rw [if_neg hst] at h
  by_cases hsl : c = '/'
  · rw [if_pos hsl] at h
    obtain ⟨ts2, hk2, hts⟩ := except_map_eq_ok h
    subst hts
    exact tokens_vars_ok_cons trivial (hk _ _ _ hk2)
  rw [if_neg hsl] at h
  by_cases hlp : c = '('
  · rw [if_pos hlp] at h
    obtain ⟨ts2, hk2, hts⟩ := except_map_eq_ok h
    subst hts
    exact tokens_vars_ok_cons trivial (hk _ _ _ hk2)
  rw [if_neg hlp] at h
  by_cases hrp : c = ')'
  · rw [if_pos hrp] at h
    obtain ⟨ts2, hk2, hts⟩ := except_map_eq_ok h
    subst hts
    exact tokens_vars_ok_cons trivial (hk _ _ _ hk2)
  rw [if_neg hrp] at h
  by_cases hcm : c = ','
  · rw [if_pos hcm] at h
    obtain ⟨ts2, hk2, hts⟩ := except_map_eq_ok h
    subst hts
    exact tokens_vars_ok_cons trivial (hk _ _ _ hk2)
  rw [if_neg hcm] at h
  by_cases heq : c = '='
  · rw [if_pos heq] at h
    obtain ⟨ts2, hk2, hts⟩ := except_map_eq_ok h
    subst hts
    exact tokens_vars_ok_cons trivial (hk _ _ _ hk2)
  rw [if_neg heq] at h
  by_cases hlt : c = '<'
  · rw [if_pos hlt] at h
    by_cases he : rest.head? = some '='
    · rw [if_pos he] at h
      obtain ⟨ts2, hk2, hts⟩ := except_map_eq_ok h
      subst hts
      exact tokens_vars_ok_cons trivial (hk _ _ _ hk2)
    rw [if_neg he] at h
    by_cases hg : rest.head? = some '>'
    · rw [if_pos hg] at h
      obtain ⟨ts2, hk2, hts⟩ := except_map_eq_ok h
      subst hts
      exact tokens_vars_ok_cons trivial (hk _ _ _ hk2)
    rw [if_neg hg] at h
    obtain ⟨ts2, hk2, hts⟩ := except_map_eq_ok h
    subst hts
    exact tokens_vars_ok_cons trivial (hk _ _ _ hk2)
  rw [if_neg hlt] at h
  by_cases hgt : c = '>'
  · rw [if_pos hgt] at h
    by_cases he : rest.head? = some '='
    · rw [if_pos he] at h
      obtain ⟨ts2, hk2, hts⟩ := except_map_eq_ok h
      subst hts
      exact tokens_vars_ok_cons trivial (hk _ _ _ hk2)
    rw [if_neg he] at h
    obtain ⟨ts2, hk2, hts⟩ := except_map_eq_ok h
    subst hts
    exact tokens_vars_ok_cons trivial (hk _ _ _ hk2)
  rw [if_neg hgt] at h
  by_cases hq : c = '"'
  · rw [if_pos hq] at h
    obtain ⟨res, hsb, h3⟩ := except_bind_eq_ok h
    obtain ⟨ts2, hk2, hts⟩ := except_map_eq_ok h3
    subst hts
    exact tokens_vars_ok_cons trivial (hk _ _ _ hk2)
  rw [if_neg hq] at h
  by_cases hdg : is_ascii_digit c = true
  · rw [if_pos hdg] at h
    obtain ⟨ts2, hk2, hts⟩ := except_map_eq_ok h
    subst hts
    exact tokens_vars_ok_cons trivial (hk _ _ _ hk2)
  rw [if_neg hdg] at h
  by_cases hlet : is_ascii_letter c = true
  · rw [if_pos hlet] at h
    obtain ⟨t, hkt, h3⟩ := except_bind_eq_ok h
    obtain ⟨ts2, hk2, hts⟩ := except_map_eq_ok h3
    subst hts
    exact tokens_vars_ok_cons (keyword_token_vars_ok c hlet rest (pos + 1) _ t hkt)
      (hk _ _ _ hk2)
  rw [if_neg hlet] at h
  exact Except.noConfusion h

theorem tokenize_aux_vars_ok : ∀ (fuel : Nat) (cs : List Char) (pos : Nat) (ts : List Token),
    tokenize_aux fuel cs pos = .ok ts → tokens_vars_ok ts := by
  intro fuel
  induction fuel with
  | zero =>
    intro cs pos ts h
    rw [tokenize_aux] at h
    exact Except.noConfusion h
  | succ fuel ih =>
    intro cs pos ts h
    rw [tokenize_aux] at h
    cases cs with
    | nil =>
      rw [tokenize_step] at h
      injection h with h2
      rw [← h2]
      exact tokens_vars_ok_nil
    | cons c rest =>
      rw [tokenize_step] at h
      exact tokenize_char_vars_ok _ c rest pos ts (fun cs2 pos2 ts2 => ih cs2 pos2 ts2) h

theorem tokenize_vars_ok (input : String) (ts : List Token)
    (h : tokenize input = .ok ts) : tokens_vars_ok ts :=
  tokenize_aux_vars_ok _ _ _ _ h

theorem except_ok_pair_inj {ε α β : Type} {a e : α} {b r : β}
    (h : (Except.ok (a, b) : Except ε (α × β)) = .ok (e, r)) : a = e ∧ b = r := by
  injection h with h2
  exact ⟨congrArg Prod.fst h2, congrArg Prod.snd h2⟩

theorem expect_token_vars_ok {exp : Token} {ts rest : List Token}
    (hts : tokens_vars_ok ts) (h : expect_token exp ts = .ok rest) : tokens_vars_ok rest := by
  cases ts with
  | nil =>
    rw [expect_token] at h
    exact Except.noConfusion h
  | cons t ts2 =>
    rw [expect_token] at h
    split at h
    · injection h with h2
      rw [← h2]
      exact tokens_vars_ok_tail hts
    · exact Except.noConfusion h

/- One-step unfolding equations for the fuel-indexed parser functions
(definitional, by `rfl`). -/

theorem parse_expr_succ (fuel : Nat) (ts : List Token) :
    parse_expr (fuel + 1) ts = parse_comparison fuel ts := rfl

theorem parse_comparison_succ (fuel : Nat) (ts : List Token) :
    parse_comparison (fuel + 1) ts =
      match parse_additive fuel ts with
      | .error e => .error e
      | .ok (left, ts1) =>
        match ts1 with
        | t :: ts2 =>
          (match comparison_op t with
           | some op =>
             (match parse_additive fuel ts2 with
              | .error e => .error e
              | .ok (right, ts3) => .ok (Expr.Binary left op right, ts3))
           | none => .ok (left, ts1))
        | [] => .ok (left, ts1) := rfl

theorem parse_additive_succ (fuel : Nat) (ts : List Token) :
    parse_additive (fuel + 1) ts =
      match parse_multiplicative fuel ts with
      | .error e => .error e
      | .ok (left, ts1) => parse_additive_loop fuel left ts1 := rfl

theorem parse_additive_loop_succ (fuel : Nat) (left : Expr) (ts : List Token) :
    parse_additive_loop (fuel + 1) left ts =
      match ts with
      | t :: ts2 =>
        (match additive_op t with
         | some op =>
           (match parse_multiplicative fuel ts2 with
            | .error e => .error e
            | .ok (right, ts3) => parse_additive_loop fuel (Expr.Binary left op right) ts3)
         | none => .ok (left, ts))
      | [] => .ok (left, ts) := rfl

theorem parse_multiplicative_succ (fuel : Nat) (ts : List Token) :
    parse_multiplicative (fuel + 1) ts =
      match parse_unary fuel ts with
      | .error e => .error e
      | .ok (left, ts1) => parse_multiplicative_loop fuel left ts1 := rfl

theorem parse_multiplicative_loop_succ (fuel : Nat) (left : Expr) (ts : List Token) :
    parse_multiplicative_loop (fuel + 1) left ts =
      match ts with
      | t :: ts2 =>
        (match multiplicative_op t with
         | some op =>
           (match parse_unary fuel ts2 with
            | .error e => .error e
            | .ok (right, ts3) => parse_multiplicative_loop fuel (Expr.Binary left op right) ts3)
         | none => .ok (left, ts))
      | [] => .ok (left, ts) := rfl

theorem parse_unary_succ (fuel : Nat) (ts : List Token) :
    parse_unary (fuel + 1) ts =
      match ts with
      | .Minus :: ts2 =>
        (match parse_unary fuel ts2 with
         | .error e => .error e
         | .ok (e, ts3) => .ok (Expr.Binary (Expr.Number 0) BinaryOp.Sub e, ts3))
      | _ => parse_primary fuel ts := rfl

theorem parse_primary_succ (fuel : Nat) (ts : List Token) :
    parse_primary (fuel + 1) ts =
      match ts with
      | .Number n :: ts2 => .ok (Expr.Number n, ts2)
      | .Ident c :: .LeftParen :: ts3 =>
        (match parse_expr fuel ts3 with
         | .error e => .error e
         | .ok (index, ts4) =>
           match expect_token .RightParen ts4 with
           | .error e => .error e
           | .ok ts5 => .ok (Expr.ArrayAccess c index, ts5))
      | .Ident c :: ts2 => .ok (Expr.Variable c, ts2)
      | .LeftParen :: ts2 =>
        (match parse_expr fuel ts2 with
         | .error e => .error e
         | .ok (e, ts3) =>
           match expect_token .RightParen ts3 with
           | .error e => .error e
           | .ok ts4 => .ok (e, ts4))
      | t :: _ => .error (.UnexpectedToken ("Expected expression, got " ++ token_debug t))
      | [] => .error .UnexpectedEnd := rfl

theorem parse_exprs_vars_ok : ∀ (fuel : Nat),
    (∀ ts e rest, tokens_vars_ok ts → parse_expr fuel ts = .ok (e, rest) →
       expr_vars_ok e ∧ tokens_vars_ok rest) ∧
    (∀ ts e rest, tokens_vars_ok ts → parse_comparison fuel ts = .ok (e, rest) →
       expr_vars_ok e ∧ tokens_vars_ok rest) ∧
    (∀ ts e rest, tokens_vars_ok ts → parse_additive fuel ts = .ok (e, rest) →
       expr_vars_ok e ∧ tokens_vars_ok rest) ∧
    (∀ ts left e rest, tokens_vars_ok ts → expr_vars_ok left →
       parse_additive_loop fuel left ts = .ok (e, rest) →
       expr_vars_ok e ∧ tokens_vars_ok rest) ∧
    (∀ ts e rest, tokens_vars_ok ts → parse_multiplicative fuel ts = .ok (e, rest) →
       expr_vars_ok e ∧ tokens_vars_ok rest) ∧
    (∀ ts left e rest, tokens_vars_ok ts → expr_vars_ok left →
       parse_multiplicative_loop fuel left ts = .ok (e, rest) →
       expr_vars_ok e ∧ tokens_vars_ok rest) ∧
    (∀ ts e rest, tokens_vars_ok ts → parse_unary fuel ts = .ok (e, rest) →
       expr_vars_ok e ∧ tokens_vars_ok rest) ∧
    (∀ ts e rest, tokens_vars_ok ts → parse_primary fuel ts = .ok (e, rest) →
       expr_vars_ok e ∧ tokens_vars_ok rest) := by
  intro fuel
  induction fuel with
  | zero =>
    refine ⟨?_, ?_, ?_, ?_, ?_, ?_, ?_, ?_⟩
    · intro ts e rest _ h
      rw [parse_expr] at h
      exact Except.noConfusion h
    · intro ts e rest _ h
      rw [parse_comparison] at h
      exact Except.noConfusion h
    · intro ts e rest _ h
      rw [parse_additive] at h
      exact Except.noConfusion h
    · intro ts left e rest _ _ h
      rw [parse_additive_loop] at h
      exact Except.noConfusion h
    · intro ts e rest _ h
      rw [parse_multiplicative] at h
      exact Except.noConfusion h
    · intro ts left e rest _ _ h
      rw [parse_multiplicative_loop] at h
      exact Except.noConfusion h
    · intro ts e rest _ h
      rw [parse_unary] at h
      exact Except.noConfusion h
    · intro ts e rest _ h
      rw [parse_primary] at h
      exact Except.noConfusion h
  | succ fuel ih =>
    obtain ⟨ihe, ihc, iha, ihal, ihm, ihml, ihu, ihp⟩ := ih
    have step_primary : ∀ ts e rest, tokens_vars_ok ts →
        parse_primary (fuel + 1) ts = .ok (e, rest) →
        expr_vars_ok e ∧ tokens_vars_ok rest := by
      intro ts e rest hts h
      rw [parse_primary_succ] at h
      split at h
      · obtain ⟨he, hr⟩ := except_ok_pair_inj h
        subst he; subst hr
        exact ⟨trivial, tokens_vars_ok_tail hts⟩
      · split at h
        · exact Except.noConfusion h
        · rename_i index ts4 hexp
          split at h
          · exact Except.noConfusion h
          · rename_i ts5 hrp
            obtain ⟨hi, hts4⟩ := ihe _ index ts4
              (tokens_vars_ok_tail (tokens_vars_ok_tail hts)) hexp
            obtain ⟨he, hr⟩ := except_ok_pair_inj h
            subst he; subst hr
            exact ⟨hi, expect_token_vars_ok hts4 hrp⟩
      · obtain ⟨he, hr⟩ := except_ok_pair_inj h
        subst he; subst hr
        exact ⟨hts _ (List.mem_cons_self _ _), tokens_vars_ok_tail hts⟩
      · split at h
        · exact Except.noConfusion h
        · rename_i e2 ts3 hexp
          split at h
          · exact Except.noConfusion h
          · rename_i ts4 hrp
            obtain ⟨hi, hts3⟩ := ihe _ e2 ts3 (tokens_vars_ok_tail hts) hexp
            obtain ⟨he, hr⟩ := except_ok_pair_inj h
            subst he; subst hr
            exact ⟨hi, expect_token_vars_ok hts3 hrp⟩
      · exact Except.noConfusion h
      · exact Except.noConfusion h
    have step_unary : ∀ ts e rest, tokens_vars_ok ts →
        parse_unary (fuel + 1) ts = .ok (e, rest) →
        expr_vars_ok e ∧ tokens_vars_ok rest := by
      intro ts e rest hts h
      rw [parse_unary_succ] at h
      split at h
      · split at h
        · exact Except.noConfusion h
        · rename_i e2 ts3 hu
          obtain ⟨hi, hts3⟩ := ihu _ e2 ts3 (tokens_vars_ok_tail hts) hu
          obtain ⟨he, hr⟩ := except_ok_pair_inj h
          subst he; subst hr
          exact ⟨⟨trivial, hi⟩, hts3⟩
      · exact ihp ts e rest hts h
    have step_mult_loop : ∀ ts left e rest, tokens_vars_ok ts → expr_vars_ok left →
        parse_multiplicative_loop (fuel + 1) left ts = .ok (e, rest) →
        expr_vars_ok e ∧ tokens_vars_ok rest := by
      intro ts left e rest hts hleft h
      rw [parse_multiplicative_loop_succ] at h
      split at h
      · split at h
        · split at h
          · exact Except.noConfusion h
          · rename_i right ts3 hu
            obtain ⟨hr2, hts3⟩ := ihu _ right ts3 (tokens_vars_ok_tail hts) hu
            refine ihml ts3 _ e rest hts3 ?_ h
            exact ⟨hleft, hr2⟩
        · obtain ⟨he, hr⟩ := except_ok_pair_inj h
          subst he; subst hr
          exact ⟨hleft, hts⟩
      · obtain ⟨he, hr⟩ := except_ok_pair_inj h
        subst he; subst hr
        exact ⟨hleft, hts⟩
    have step_mult : ∀ ts e rest, tokens_vars_ok ts →
        parse_multiplicative (fuel + 1) ts = .ok (e, rest) →
        expr_vars_ok e ∧ tokens_vars_ok rest := by
      intro ts e rest hts h
      rw [parse_multiplicative_succ] at h
      split at h
      · exact Except.noConfusion h
      · rename_i left ts1 hu
        obtain ⟨hleft, hts1⟩ := ihu ts left ts1 hts hu
        exact ihml ts1 left e rest hts1 hleft h
    have step_add_loop : ∀ ts left e rest, tokens_vars_ok ts → expr_vars_ok left →
        parse_additive_loop (fuel + 1) left ts = .ok (e, rest) →
        expr_vars_ok e ∧ tokens_vars_ok rest := by
      intro ts left e rest hts hleft h
      rw [parse_additive_loop_succ] at h
      split at h
      · split at h
        · split at h
          · exact Except.noConfusion h
          · rename_i right ts3 hm
            obtain ⟨hr2, hts3⟩ := ihm _ right ts3 (tokens_vars_ok_tail hts) hm
            refine ihal ts3 _ e rest hts3 ?_ h
            exact ⟨hleft, hr2⟩
        · obtain ⟨he, hr⟩ := except_ok_pair_inj h
          subst he; subst hr
          exact ⟨hleft, hts⟩
      · obtain ⟨he, hr⟩ := except_ok_pair_inj h
        subst he; subst hr
        exact ⟨hleft, hts⟩
    have step_add : ∀ ts e rest, tokens_vars_ok ts →
        parse_additive (fuel + 1) ts = .ok (e, rest) →
        expr_vars_ok e ∧ tokens_vars_ok rest := by
      intro ts e rest hts h
      rw [parse_additive_succ] at h
      split at h
      · exact Except.noConfusion h
      · rename_i left ts1 hm
        obtain ⟨hleft, hts1⟩ := ihm ts left ts1 hts hm
        exact ihal ts1 left e rest hts1 hleft h
    have step_comparison : ∀ ts e rest, tokens_vars_ok ts →
        parse_comparison (fuel + 1) ts = .ok (e, rest) →
        expr_vars_ok e ∧ tokens_vars_ok rest := by
      intro ts e rest hts h
      rw [parse_comparison_succ] at h
      split at h
      · exact Except.noConfusion h
      · rename_i left ts1 ha
        obtain ⟨hleft, hts1⟩ := iha ts left ts1 hts ha
        split at h
        · split at h
          · split at h
            · exact Except.noConfusion h
            · rename_i right ts3 ha2
              obtain ⟨hr2, hts3⟩ := iha _ right ts3 (tokens_vars_ok_tail hts1) ha2
              obtain ⟨he, hr⟩ := except_ok_pair_inj h
              subst he; subst hr
              exact ⟨⟨hleft, hr2⟩, hts3⟩
          · obtain ⟨he, hr⟩ := except_ok_pair_inj h
            subst he; subst hr
            exact ⟨hleft, hts1⟩
        · obtain ⟨he, hr⟩ := except_ok_pair_inj h
          subst he; subst hr
          exact ⟨hleft, hts1⟩
    refine ⟨?_, step_comparison, step_add, step_add_loop, step_mult, step_mult_loop,
            step_unary, step_primary⟩
    intro ts e rest hts h
    rw [parse_expr_succ] at h
    exact ihc ts e rest hts h

theorem items_ok_append {items : List PrintItem} {it : PrintItem}
    (h1 : ∀ i ∈ items, item_vars_ok i) (h2 : item_vars_ok it) :
    ∀ i ∈ items ++ [it], item_vars_ok i := by
  intro i hi
  rcases List.mem_append.mp hi with h | h
  · exact h1 i h
  · simp only [List.mem_singleton] at h
    subst h
    exact h2

theorem item_ok_string (s : String) : item_vars_ok (PrintItem.String s) := trivial

theorem item_ok_expr {e : Expr} (h : expr_vars_ok e) : item_vars_ok (PrintItem.Expr e) := h

theorem parse_print_after_vars_ok
    {k : List PrintItem → List Token → Except ParseError (List PrintItem × List Token)}
    {items : List PrintItem} {ts : List Token} {res : List PrintItem} {rest : List Token}
    (hts : tokens_vars_ok ts) (hitems : ∀ it ∈ items, item_vars_ok it)
    (hk : ∀ items2 ts2 res2 rest2, tokens_vars_ok ts2 → (∀ it ∈ items2, item_vars_ok it) →
        k items2 ts2 = .ok (res2, rest2) →
        (∀ it ∈ res2, item_vars_ok it) ∧ tokens_vars_ok rest2)
    (h : parse_print_after k items ts = .ok (res, rest)) :
    (∀ it ∈ res, item_vars_ok it) ∧ tokens_vars_ok rest := by
  rw [parse_print_after.eq_def] at h
  split at h
  · exact hk items _ res rest (tokens_vars_ok_tail hts) hitems h
  · obtain ⟨he, hr⟩ := except_ok_pair_inj h
    subst he; subst hr
    exact ⟨hitems, hts⟩

theorem parse_print_loop_succ (fuel : Nat) (items : List PrintItem) (ts : List Token) :
    parse_print_loop (fuel + 1) items ts =
      match ts with
      | .String s :: ts2 => parse_print_after (parse_print_loop fuel) (items ++ [.String s]) ts2
      | .Ident _ :: _ =>
        (match parse_expr fuel ts with
         | .error e => .error e
         | .ok (e, ts2) => parse_print_after (parse_print_loop fuel) (items ++ [.Expr e]) ts2)
      | .Number _ :: _ =>
        (match parse_expr fuel ts with
         | .error e => .error e
         | .ok (e, ts2) => parse_print_after (parse_print_loop fuel) (items ++ [.Expr e]) ts2)
      | .LeftParen :: _ =>
        (match parse_expr fuel ts with
         | .error e => .error e
         | .ok (e, ts2) => parse_print_after (parse_print_loop fuel) (items ++ [.Expr e]) ts2)
      | .Comma :: ts2 => parse_print_loop fuel items ts2
      | _ => .ok (items, ts) := rfl

theorem parse_print_loop_vars_ok : ∀ (fuel : Nat) (items : List PrintItem) (ts : List Token)
    (res : List PrintItem) (rest : List Token),
    tokens_vars_ok ts → (∀ it ∈ items, item_vars_ok it) →
    parse_print_loop fuel items ts = .ok (res, rest) →
    (∀ it ∈ res, item_vars_ok it) ∧ tokens_vars_ok rest := by
  intro fuel
  induction fuel with
  | zero =>
    intro items ts res rest _ _ h
    rw [parse_print_loop] at h
    exact Except.noConfusion h
  | succ fuel ih =>
    intro items ts res rest hts hitems h
    rw [parse_print_loop_succ] at h
    split at h
    · exact parse_print_after_vars_ok (tokens_vars_ok_tail hts)
        (items_ok_append hitems (item_ok_string _)) (fun a b c d => ih a b c d) h
    · split at h
      · exact Except.noConfusion h
      · rename_i e2 ts2 hexp
        obtain ⟨he2, hts2⟩ := (parse_exprs_vars_ok fuel).1 _ e2 ts2 hts hexp
        exact parse_print_after_vars_ok hts2
          (items_ok_append hitems (item_ok_expr he2)) (fun a b c d => ih a b c d) h
    · split at h
      · exact Except.noConfusion h
      · rename_i e2 ts2 hexp
        obtain ⟨he2, hts2⟩ := (parse_exprs_vars_ok fuel).1 _ e2 ts2 hts hexp
        exact parse_print_after_vars_ok hts2
          (items_ok_append hitems (item_ok_expr he2)) (fun a b c d => ih a b c d) h
    · split at h
      · exact Except.noConfusion h
      · rename_i e2 ts2 hexp
        obtain ⟨he2, hts2⟩ := (parse_exprs_vars_ok fuel).1 _ e2 ts2 hts hexp
        exact parse_print_after_vars_ok hts2
          (items_ok_append hitems (item_ok_expr he2)) (fun a b c d => ih a b c d) h
    · exact ih items _ res rest (tokens_vars_ok_tail hts) hitems h
    · obtain ⟨he, hr⟩ := except_ok_pair_inj h
      subst he; subst hr
      exact ⟨hitems, hts⟩

theorem parse_goto_vars_ok {ts rest : List Token} {stmt : Stmt}
    (hts : tokens_vars_ok ts) (h : parse_goto ts = .ok (stmt, rest)) :
    stmt_vars_ok stmt ∧ tokens_vars_ok rest := by
  rw [parse_goto.eq_def] at h
  split at h
  · obtain ⟨he, hr⟩ := except_ok_pair_inj h
    subst he; subst hr
    exact ⟨trivial, tokens_vars_ok_tail hts⟩
  · exact Except.noConfusion h
  · exact Except.noConfusion h

theorem parse_dim_vars_ok {ts rest : List Token} {stmt : Stmt}
    (hts : tokens_vars_ok ts) (h : parse_dim ts = .ok (stmt, rest)) :
    stmt_vars_ok stmt ∧ tokens_vars_ok rest := by
  rw [parse_dim.eq_def] at h
  split at h
  · split at h
    · exact Except.noConfusion h
    · rename_i rest2 hlp
      split at h
      · split at h
        · exact Except.noConfusion h
        · rename_i rest4 hrp
          obtain ⟨he, hr⟩ := except_ok_pair_inj h
          subst he; subst hr
          refine ⟨trivial, expect_token_vars_ok ?_ hrp⟩
          exact tokens_vars_ok_tail (expect_token_vars_ok (tokens_vars_ok_tail hts) hlp)
      · exact Except.noConfusion h
      · exact Except.noConfusion h
  · exact Except.noConfusion h
  · exact Except.noConfusion h

theorem parse_let_vars_ok {fuel : Nat} {ts rest : List Token} {stmt : Stmt}
    (hts : tokens_vars_ok ts) (h : parse_let fuel ts = .ok (stmt, rest)) :
    stmt_vars_ok stmt ∧ tokens_vars_ok rest := by
  rw [parse_let.eq_def] at h
  split at h
  · split at h
    · exact Except.noConfusion h
    · rename_i index ts4 hexp
      split at h
      · exact Except.noConfusion h
      · rename_i ts5 hrp
        split at h
        · exact Except.noConfusion h
        · rename_i ts6 heq
          split at h
          · exact Except.noConfusion h
          · rename_i value ts7 hexp2
            obtain ⟨hi, hts4⟩ := (parse_exprs_vars_ok fuel).1 _ index ts4
              (tokens_vars_ok_tail (tokens_vars_ok_tail hts)) hexp
            have hts6 := expect_token_vars_ok (expect_token_vars_ok hts4 hrp) heq
            obtain ⟨hv, hts7⟩ := (parse_exprs_vars_ok fuel).1 _ value ts7 hts6 hexp2
            obtain ⟨he, hr⟩ := except_ok_pair_inj h
            subst he; subst hr
            exact ⟨⟨hi, hv⟩, hts7⟩
  · split at h
    · exact Except.noConfusion h
    · rename_i ts3 heq
      split at h
      · exact Except.noConfusion h
      · rename_i value ts4 hexp
        obtain ⟨hv, hts4⟩ := (parse_exprs_vars_ok fuel).1 _ value ts4
          (expect_token_vars_ok (tokens_vars_ok_tail hts) heq) hexp
        obtain ⟨he, hr⟩ := except_ok_pair_inj h
        subst he; subst hr
        exact ⟨hv, hts4⟩
  · exact Except.noConfusion h
  · exact Except.noConfusion h

theorem parse_if_vars_ok {fuel : Nat} {ts rest : List Token} {stmt : Stmt}
    (hts : tokens_vars_ok ts) (h : parse_if fuel ts = .ok (stmt, rest)) :
    stmt_vars_ok stmt ∧ tokens_vars_ok rest := by
  rw [parse_if] at h
  split at h
  · exact Except.noConfusion h
  · rename_i condition ts1 hexp
    split at h
    · exact Except.noConfusion h
    · rename_i ts2 hthen
      obtain ⟨hc, hts1⟩ := (parse_exprs_vars_ok fuel).1 _ condition ts1 hts hexp
      have hts2 := expect_token_vars_ok hts1 hthen
      split at h
      · obtain ⟨he, hr⟩ := except_ok_pair_inj h
        subst he; subst hr
        exact ⟨hc, tokens_vars_ok_tail hts2⟩
      · exact Except.noConfusion h
      · exact Except.noConfusion h

theorem parse_statement_vars_ok {fuel : Nat} {ts rest : List Token} {stmt : Stmt}
    (hts : tokens_vars_ok ts) (h : parse_statement fuel ts = .ok (stmt, rest)) :
    stmt_vars_ok stmt ∧ tokens_vars_ok rest := by
  rw [parse_statement.eq_def] at h
  split at h
  · -- PRINT
    rw [parse_print] at h
    split at h
    · exact Except.noConfusion h
    · rename_i items ts1 hloop
      obtain ⟨hitems, hts1⟩ := parse_print_loop_vars_ok fuel [] _ items ts1
        (tokens_vars_ok_tail hts) (by intro i hi; cases hi) hloop
      obtain ⟨he, hr⟩ := except_ok_pair_inj h
      subst he; subst hr
      exact ⟨hitems, hts1⟩
  · exact parse_let_vars_ok (tokens_vars_ok_tail hts) h
  · exact parse_goto_vars_ok (tokens_vars_ok_tail hts) h
  · exact parse_if_vars_ok (tokens_vars_ok_tail hts) h
  · obtain ⟨he, hr⟩ := except_ok_pair_inj h
    subst he; subst hr
    exact ⟨trivial, tokens_vars_ok_tail hts⟩
  · exact parse_dim_vars_ok (tokens_vars_ok_tail hts) h
  · exact Except.noConfusion h
  · exact Except.noConfusion h

theorem parse_line_vars_ok {fuel : Nat} {ts rest : List Token} {ol : Option Line}
    (hts : tokens_vars_ok ts) (h : parse_line fuel ts = .ok (ol, rest)) :
    tokens_vars_ok rest ∧ ∀ line, ol = some line → stmt_vars_ok line.stmt := by
  rw [parse_line.eq_def] at h
  split at h
  · split at h
    · exact Except.noConfusion h
    · rename_i stmt ts3 hstmt
      obtain ⟨hs, hts3⟩ := parse_statement_vars_ok (tokens_vars_ok_tail hts) hstmt
      obtain ⟨he, hr⟩ := except_ok_pair_inj h
      subst he; subst hr
      refine ⟨hts3, ?_⟩
      intro line hl
      injection hl with hl2
      rw [← hl2]
      exact hs
  · obtain ⟨he, hr⟩ := except_ok_pair_inj h
    subst he; subst hr
    exact ⟨hts, fun line hl => Option.noConfusion hl⟩

theorem prog_ok_append {lines : List Line} {line : Line}
    (h1 : prog_vars_ok lines) (h2 : stmt_vars_ok line.stmt) :
    prog_vars_ok (lines ++ [line]) := by
  intro l hl
  rcases List.mem_append.mp hl with h | h
  · exact h1 l h
  · simp only [List.mem_singleton] at h
    subst h
    exact h2

theorem parse_program_loop_succ (fuel : Nat) (lines : List Line) (ts : List Token) :
    parse_program_loop (fuel + 1) lines ts =
      match parse_line fuel ts with
      | .error e => .error e
      | .ok (some line, ts2) => parse_program_loop fuel (lines ++ [line]) ts2
      | .ok (none, _) => .ok lines := rfl

theorem parse_program_loop_vars_ok : ∀ (fuel : Nat) (lines : List Line) (ts : List Token)
    (res : List Line), tokens_vars_ok ts → prog_vars_ok lines →
    parse_program_loop fuel lines ts = .ok res → prog_vars_ok res := by
  intro fuel
  induction fuel with
  | zero =>
    intro lines ts res _ _ h
    rw [parse_program_loop] at h
    exact Except.noConfusion h
  | succ fuel ih =>
    intro lines ts res hts hlines h
    rw [parse_program_loop_succ] at h
    split at h
    · exact Except.noConfusion h
    · rename_i line ts2 hline
      obtain ⟨hts2, hol⟩ := parse_line_vars_ok hts hline
      exact ih _ ts2 res hts2 (prog_ok_append hlines (hol line rfl)) h
    · injection h with h2
      rw [← h2]
      exact hlines

theorem parse_program_vars_ok {ts : List Token} {prog : List Line}
    (hts : tokens_vars_ok ts) (h : parse_program ts = .ok prog) : prog_vars_ok prog := by
  rw [parse_program.eq_def] at h
  split at h
  · exact Except.noConfusion h
  · rename_i lines hloop
    injection h with h2
    rw [← h2]
    intro l hl
    rw [List.mem_mergeSort] at hl
    exact parse_program_loop_vars_ok _ [] ts lines hts (fun l2 hl2 => absurd hl2 (by simp)) hloop l hl

theorem parse_vars_ok {src : String} {prog : List Line}
    (h : parse src = .ok prog) : prog_vars_ok prog := by
  rw [parse.eq_def] at h
  split at h
  · exact Except.noConfusion h
  · rename_i ts htok
    exact parse_program_vars_ok (tokenize_vars_ok src ts htok) h

theorem eval_expr_no_undefined_var {st : Interpreter} (hbank : bank_ok st) :
    ∀ (e : Expr), expr_vars_ok e →
    ∀ (c : Char) , st.eval_expr e ≠ .error (.UndefinedVariable c) := by
  intro e
  induction e with
  | Number n =>
    intro _ c h
    exact RunResult.noConfusion h
  | Variable v =>
    intro he c h
    rw [Interpreter.eval_expr] at h
    split at h
    · exact RunResult.noConfusion h
    · rename_i heq
      have hv : (st.vars v).isSome := hbank v he
      rw [heq] at hv
      exact Bool.noConfusion hv
  | ArrayAccess name idx ih =>
    intro he c h
    rw [Interpreter.eval_expr] at h
    rcases rr_bind_eq_error h with h2 | ⟨i, hi, h2⟩
    · exact ih he c h2
    · split at h2
      · injection h2 with h3
        exact RuntimeError.noConfusion h3
      · split at h2
        · injection h2 with h3
          exact RuntimeError.noConfusion h3
        · exact RunResult.noConfusion h2
  | Binary l op r ihl ihr =>
    intro he c h
    rw [Interpreter.eval_expr] at h
    rcases rr_bind_eq_error h with h2 | ⟨lv, hl, h2⟩
    · exact ihl he.1 c h2
    · rcases rr_bind_eq_error h2 with h3 | ⟨rv, hr, h3⟩
      · exact ihr he.2 c h3
      · cases op
        case Div =>
          have h4 : (if rv = 0 then (RunResult.error RuntimeError.DivisionByZero : RunResult Int)
                     else if lv = -(2 ^ 31) ∧ rv = -1 then .panic ("attempt to divide with overflow")
                     else .ok (wrap32 (lv.tdiv rv))) = .error (.UndefinedVariable c) := h3
          split at h4
          · injection h4 with h5
            exact RuntimeError.noConfusion h5
          · split at h4
            · exact RunResult.noConfusion h4
            · exact RunResult.noConfusion h4
        all_goals exact RunResult.noConfusion h3

theorem render_items_no_undefined_var {st : Interpreter} (hbank : bank_ok st) :
    ∀ (items : List PrintItem), (∀ it ∈ items, item_vars_ok it) →
    ∀ (c : Char), st.render_items items ≠ .error (.UndefinedVariable c) := by
  intro items
  induction items with
  | nil =>
    intro _ c h
    exact RunResult.noConfusion h
  | cons it rest ih =>
    intro hits c h
    cases it with
    | String s =>
      rw [Interpreter.render_items] at h
      rcases rr_bind_eq_error h with h2 | ⟨out, ho, h2⟩
      · exact ih (fun i hi => hits i (List.mem_cons_of_mem _ hi)) c h2
      · exact RunResult.noConfusion h2
    | Expr e =>
      rw [Interpreter.render_items] at h
      rcases rr_bind_eq_error h with h2 | ⟨v, hv, h2⟩
      · exact eval_expr_no_undefined_var hbank e (hits _ (List.mem_cons_self _ _)) c h2
      · rcases rr_bind_eq_error h2 with h3 | ⟨out, ho, h3⟩
        · exact ih (fun i hi => hits i (List.mem_cons_of_mem _ hi)) c h3
        · exact RunResult.noConfusion h3

theorem execute_statement_no_undefined_var {st : Interpreter} (hbank : bank_ok st)
    {stmt : Stmt} (hs : stmt_vars_ok stmt) :
    ∀ (c : Char), st.execute_statement stmt ≠ .error (.UndefinedVariable c) := by
  intro c h
  cases stmt with
  | Print items =>
    rw [Interpreter.execute_statement] at h
    rcases rr_bind_eq_error h with h2 | ⟨out, ho, h2⟩
    · exact render_items_no_undefined_var hbank items hs c h2
    · exact RunResult.noConfusion h2
  | Let var value =>
    rw [Interpreter.execute_statement] at h
    rcases rr_bind_eq_error h with h2 | ⟨v, hv, h2⟩
    · exact eval_expr_no_undefined_var hbank value hs c h2
    · exact RunResult.noConfusion h2
  | LetArray name idx value =>
    rw [Interpreter.execute_statement] at h
    rcases rr_bind_eq_error h with h2 | ⟨i, hi, h2⟩
    · exact eval_expr_no_undefined_var hbank idx hs.1 c h2
    · rcases rr_bind_eq_error h2 with h3 | ⟨v, hv, h3⟩
      · exact eval_expr_no_undefined_var hbank value hs.2 c h3
      · split at h3
        · injection h3 with h4
          exact RuntimeError.noConfusion h4
        · split at h3
          · injection h3 with h4
            exact RuntimeError.noConfusion h4
          · exact RunResult.noConfusion h3
  | Goto n =>
    rw [Interpreter.execute_statement] at h
    exact RunResult.noConfusion h
  | If cond then_line =>
    rw [Interpreter.execute_statement] at h
    rcases rr_bind_eq_error h with h2 | ⟨v, hv, h2⟩
    · exact eval_expr_no_undefined_var hbank cond hs c h2
    · split at h2 <;> exact RunResult.noConfusion h2
  | End =>
    rw [Interpreter.execute_statement] at h
    exact RunResult.noConfusion h
  | Dim name size =>
    rw [Interpreter.execute_statement] at h
    split at h
    · injection h with h4
      exact RuntimeError.noConfusion h4
    · exact RunResult.noConfusion h

theorem execute_statement_ok_inv {st st' : Interpreter} {stmt : Stmt} {j : Option Int}
    (hbank : bank_ok st) (h : st.execute_statement stmt = .ok (st', j)) :
    bank_ok st' ∧ st'.program = st.program := by
  cases stmt with
  | Print items =>
    rw [Interpreter.execute_statement] at h
    rcases rr_bind_eq_ok h with ⟨out, ho, h2⟩
    obtain ⟨he, hr⟩ := rr_ok_pair_inj h2
    rw [← he]
    exact ⟨hbank, rfl⟩
  | Let var value =>
    rw [Interpreter.execute_statement] at h
    rcases rr_bind_eq_ok h with ⟨v, hv, h2⟩
    obtain ⟨he, hr⟩ := rr_ok_pair_inj h2
    rw [← he]
    refine ⟨?_, rfl⟩
    intro c2 hc2
    show (if c2 = var then some v else st.vars c2).isSome
    split
    · rfl
    · exact hbank c2 hc2
  | LetArray name idx value =>
    rw [Interpreter.execute_statement] at h
    rcases rr_bind_eq_ok h with ⟨i, hi, h2⟩
    rcases rr_bind_eq_ok h2 with ⟨v, hv, h3⟩
    split at h3
    · exact RunResult.noConfusion h3
    · split at h3
      · exact RunResult.noConfusion h3
      · obtain ⟨he, hr⟩ := rr_ok_pair_inj h3
        rw [← he]
        exact ⟨hbank, rfl⟩
  | Goto n =>
    rw [Interpreter.execute_statement] at h
    obtain ⟨he, hr⟩ := rr_ok_pair_inj h
    rw [← he]
    exact ⟨hbank, rfl⟩
  | If cond then_line =>
    rw [Interpreter.execute_statement] at h
    rcases rr_bind_eq_ok h with ⟨v, hv, h2⟩
    split at h2 <;>
      (obtain ⟨he, hr⟩ := rr_ok_pair_inj h2
       rw [← he]
       exact ⟨hbank, rfl⟩)
  | End =>
    rw [Interpreter.execute_statement] at h
    obtain ⟨he, hr⟩ := rr_ok_pair_inj h
    rw [← he]
    exact ⟨hbank, rfl⟩
  | Dim name size =>
    rw [Interpreter.execute_statement] at h
    split at h
    · exact RunResult.noConfusion h
    · obtain ⟨he, hr⟩ := rr_ok_pair_inj h
      rw [← he]
      exact ⟨hbank, rfl⟩

theorem run_loop_no_undefined_var : ∀ (fuel : Nat) (st : Interpreter),
    bank_ok st → prog_vars_ok st.program →
    ∀ (c : Char), (Interpreter.run_loop fuel st).2 ≠ some (.error (.UndefinedVariable c)) := by
  intro fuel
  induction fuel with
  | zero =>
    intro st _ _ c h
    rw [Interpreter.run_loop] at h
    exact Option.noConfusion h
  | succ fuel ih =>
    intro st hbank hprog c h
    rw [Interpreter.run_loop] at h
    split at h
    · injection h with h2
      exact RunResult.noConfusion h2
    · split at h
      · injection h with h2
        exact RunResult.noConfusion h2
      · rename_i line hline
        have hmem : line ∈ st.program := by
          obtain ⟨hlt, hget⟩ := List.getElem?_eq_some.mp hline
          rw [← hget]
          exact List.getElem_mem hlt
        split at h
        · rename_i e2 hexec
          injection h with h2
          injection h2 with h3
          refine execute_statement_no_undefined_var hbank (hprog line hmem) c ?_
          rw [hexec, h3]
        · rename_i m hexec
          injection h with h2
          exact RunResult.noConfusion h2
        · rename_i st' goto_line hexec
          obtain ⟨hbank2, hprog2⟩ := execute_statement_ok_inv hbank hexec
          split at h
          · rename_i e2 hgli
            injection h with h2
            injection h2 with h3
            rw [Interpreter.get_line_index.eq_def] at hgli
            split at hgli
            · exact Except.noConfusion hgli
            · injection hgli with h4
              rw [← h4] at h3
              exact RuntimeError.noConfusion h3
          · rename_i i hgli
            refine ih _ ?_ ?_ c h
            · exact hbank2
            · show prog_vars_ok st'.program
              rw [hprog2]
              exact hprog
        · rename_i st' hexec
          obtain ⟨hbank2, hprog2⟩ := execute_statement_ok_inv hbank hexec
          refine ih _ ?_ ?_ c h
          · exact hbank2
          · show prog_vars_ok st'.program
            rw [hprog2]
            exact hprog

/-- C7: every one of the 26 letters reads as 0 in a freshly constructed
Interpreter before any LET executes, and running any successfully parsed
program can never surface the undefined-variable error: the lexer only
emits uppercase-letter identifiers, the parser only builds variable
references from them, the bank is pre-seeded for all of A-Z and is never
shrunk, so the undefined-variable branch is unreachable at runtime. -/
theorem c7_variables_preseeded_no_undefined :
    (∀ (prog : List Line) (c : Char), 'A' ≤ c → c ≤ 'Z' →
       (Interpreter.new prog).eval_expr (.Variable c) = .ok 0) ∧
    (∀ (src : String) (prog : List Line) (fuel : Nat) (c : Char),
       parse src = .ok prog →
       ((Interpreter.new prog).run fuel).2 ≠ some (.error (.UndefinedVariable c))) := by
  constructor
  · intro prog c h1 h2
    rw [Interpreter.eval_expr]
    have hv : (Interpreter.new prog).vars c = some 0 := by
      show (if 'A' ≤ c ∧ c ≤ 'Z' then some (0 : Int) else none) = some 0
      rw [if_pos ⟨h1, h2⟩]
    rw [hv]
  · intro src prog fuel c hp h
    have hbank : bank_ok (Interpreter.new prog) := by
      intro c2 hc2
      show (if 'A' ≤ c2 ∧ c2 ≤ 'Z' then some (0 : Int) else none).isSome
      rw [if_pos (And.intro hc2.1 hc2.2)]
      rfl
    have hprog : prog_vars_ok prog := parse_vars_ok hp
    unfold Interpreter.run at h
    split at h
    · injection h with h2
      exact RunResult.noConfusion h2
    · refine run_loop_no_undefined_var fuel _ ?_ ?_ c h
      · exact hbank
      · exact hprog

/-- Witness for C7's theorem: the fresh value of M, and a concrete parsed
program whose run cannot produce an undefined-variable error. -/
theorem c7_witness :
    (Interpreter.new [⟨10, .Goto 10⟩]).eval_expr (.Variable 'M') = .ok 0 ∧
    ((Interpreter.new [⟨10, .Goto 99⟩]).run 6).2
      ≠ some (.error (.UndefinedVariable 'A')) :=
  ⟨c7_variables_preseeded_no_undefined.1 _ 'M' (by decide) (by decide),
   c7_variables_preseeded_no_undefined.2 ("10 GOTO 99") [⟨10, .Goto 99⟩] 6 'A'
     (parse_eq_of_sorted _ [Token.Number 10, Token.Goto, Token.Number 99] _
       (by decide) (by decide) (by simp))⟩
